import Mathlib

/-!
Verification development for the bms-resource-toolbox reconciliation core:
the tree-merge engine (`moveElementsAcrossDir` and friends), the one-way
sync engine (`syncFolder`), the content comparator (`isFileSameContent`)
and the directory similarity scorer (`bmsDirSimilarity`).

The filesystem is modelled as a finite association list from paths
(lists of name components) to items (files with content bytes, an mtime
and a readability flag used to model I/O read failures, or directories).
The Tauri `plugin-fs` primitives (`stat`, `exists`, `readDir`, `rename`,
`remove`, `copyFile`, `mkdir`, `readFile`) are given POSIX-like pure
semantics on this state; fallible calls return `Option`/`Except`.
All engine functions are translated statement by statement from the
TypeScript source; loops carry explicit fuel so that every definition is
executable and reduces in the kernel.
-/

namespace BRT

/-- Decidable equality for `Except` results, so that theorems about
concrete runs can be settled by `decide`. -/
instance {ε α : Type} [DecidableEq ε] [DecidableEq α] :
    DecidableEq (Except ε α) := fun x y =>
  match x, y with
  | Except.ok a, Except.ok b =>
    if h : a = b then isTrue (by rw [h])
    else isFalse (fun hh => by cases hh; exact h rfl)
  | Except.error a, Except.error b =>
    if h : a = b then isTrue (by rw [h])
    else isFalse (fun hh => by cases hh; exact h rfl)
  | Except.ok _, Except.error _ => isFalse (fun hh => by cases hh)
  | Except.error _, Except.ok _ => isFalse (fun hh => by cases hh)

/-- A filesystem path, as the list of its name components. -/
abbrev Path := List String

/-- A filesystem node: a file (content bytes, mtime, and a flag telling
whether `readFile` succeeds on it — error injection for I/O failures), or
a directory. -/
inductive FsItem where
  | file (content : List Nat) (mtime : Int) (readable : Bool)
  | dir
deriving DecidableEq, Repr

/-- Filesystem state: association list from paths to items.  The root
`[]` is an implicit, always-existing directory. -/
structure FS where
  entries : List (Path × FsItem)
deriving DecidableEq, Repr

/-- `stat`: look an item up.  The root is always a directory. -/
def statFS (fs : FS) (p : Path) : Option FsItem :=
  if p = [] then some FsItem.dir
  else (fs.entries.find? (fun e => decide (e.1 = p))).map (fun e => e.2)

/-- `exists`: does anything live at this path? -/
def existsFS (fs : FS) (p : Path) : Bool :=
  (statFS fs p).isSome

/-- `readDir`: the entries directly below a directory, as
(name, isDirectory) pairs; `none` (a rejected promise) when the path is
not a directory. -/
def readDirFS (fs : FS) (d : Path) : Option (List (String × Bool)) :=
  if statFS fs d = some FsItem.dir then
    some (fs.entries.filterMap (fun e =>
      if e.1.length = d.length + 1 ∧ d <+: e.1 then
        (e.1.getLast?).map (fun n => (n, decide (e.2 = FsItem.dir)))
      else none))
  else none

/-- Delete the whole subtree rooted at `p` (state change only). -/
def eraseTree (fs : FS) (p : Path) : FS :=
  ⟨fs.entries.filter (fun e => decide (¬ p <+: e.1))⟩

/-- Relabel the subtree rooted at `src` to live at `dst` (state change
only; any entries already below `dst` are kept, so callers erase first
when overwriting). -/
def graftTree (fs : FS) (src dst : Path) : FS :=
  ⟨fs.entries.map (fun e =>
    if src <+: e.1 then (dst ++ e.1.drop src.length, e.2) else e)⟩

/-- `rename`: POSIX-like semantics.  Fails (`none`) when the source is
missing, the destination parent is not a directory, the destination lies
inside the source, or the destination is occupied by an incompatible
item (a file cannot replace a directory and vice versa; a directory can
only replace an empty directory). -/
def renameFS (fs : FS) (src dst : Path) : Option FS :=
  match statFS fs src with
  | none => none
  | some srcIt =>
    if src = dst then some fs
    else if statFS fs dst.dropLast ≠ some FsItem.dir then none
    else if src <+: dst then none
    else
      match statFS fs dst with
      | none => some (graftTree fs src dst)
      | some dstIt =>
        match srcIt, dstIt with
        | FsItem.file _ _ _, FsItem.file _ _ _ =>
          some (graftTree (eraseTree fs dst) src dst)
        | FsItem.dir, FsItem.dir =>
          if (readDirFS fs dst).getD [] = [] then
            some (graftTree (eraseTree fs dst) src dst)
          else none
        | _, _ => none

/-- `remove` without `recursive`: deletes a file, or an empty directory. -/
def removeFileE (fs : FS) (p : Path) : Option FS :=
  match statFS fs p with
  | some (FsItem.file _ _ _) => some (eraseTree fs p)
  | some FsItem.dir =>
    if (readDirFS fs p).getD [] = [] then some (eraseTree fs p) else none
  | none => none

/-- `remove` with `recursive: true`: deletes the whole subtree. -/
def removeRecE (fs : FS) (p : Path) : Option FS :=
  if existsFS fs p then some (eraseTree fs p) else none

/-- `mkdir` with `recursive: true`: create the directory and any missing
ancestors. -/
def mkdirFS (fs : FS) (p : Path) : FS :=
  ⟨((List.range p.length).filterMap (fun n =>
      let q := p.take (n + 1)
      if existsFS fs q then none else some (q, FsItem.dir))) ++ fs.entries⟩

/-- `copyFile`: overwrite-copy a file's bytes to `dst`. -/
def copyFileE (fs : FS) (src dst : Path) : Option FS :=
  match statFS fs src with
  | some (FsItem.file c t r) =>
    if statFS fs dst.dropLast = some FsItem.dir then
      match statFS fs dst with
      | none => some ⟨(dst, FsItem.file c t r) :: fs.entries⟩
      | some (FsItem.file _ _ _) =>
        some ⟨fs.entries.map (fun e =>
          if e.1 = dst then (dst, FsItem.file c t r) else e)⟩
      | some FsItem.dir => none
    else none
  | _ => none

/-- Size as reported by `stat` (directories report 0 in this model). -/
def itemSize : FsItem → Nat
  | FsItem.file c _ _ => c.length
  | FsItem.dir => 0

/-- `mtime?.getTime() || 0` as reported by `stat`. -/
def itemMtime : FsItem → Int
  | FsItem.file _ t _ => t
  | FsItem.dir => 0

/-- `stat` as a fallible call. -/
def statE (fs : FS) (p : Path) : Except Unit FsItem :=
  match statFS fs p with
  | some it => Except.ok it
  | none => Except.error ()

/-- `readFile` as a fallible call: fails on directories, missing paths
and unreadable files. -/
def readFileE (fs : FS) (p : Path) : Except Unit (List Nat) :=
  match statFS fs p with
  | some (FsItem.file c _ true) => Except.ok c
  | _ => Except.error ()

/-- `calculateFileHash`: the whole-file SHA-512 digest, modelled as the
content itself (digest equality stands for content equality). -/
def calculateFileHash (fs : FS) (p : Path) : Except Unit (List Nat) :=
  readFileE fs p

/-- Body of `isFileSameContent` (the `try` block), instrumented: the
second component records whether the hash computation was reached. -/
def isFileSameContentT (fs : FS) (file1 file2 : Path) :
    Except Unit Bool × Bool :=
  match statE fs file1, statE fs file2 with
  | Except.ok meta1, Except.ok meta2 =>
    if itemSize meta1 ≠ itemSize meta2 then (Except.ok false, false)
    else
      match calculateFileHash fs file1, calculateFileHash fs file2 with
      | Except.ok h1, Except.ok h2 => (Except.ok (decide (h1 = h2)), true)
      | _, _ => (Except.error (), true)
  | _, _ => (Except.error (), false)

/-- `isFileSameContent` before its `catch`. -/
def isFileSameContentE (fs : FS) (file1 file2 : Path) : Except Unit Bool :=
  (isFileSameContentT fs file1 file2).1

/-- `isFileSameContent`: compare sizes, then hashes; any error is caught
and reported as `false`. -/
def isFileSameContent (fs : FS) (file1 file2 : Path) : Bool :=
  match isFileSameContentE fs file1 file2 with
  | Except.ok v => v
  | Except.error _ => false

/-- `isDirHavingFile`: does the directory directly contain a file?
Errors are caught and reported as `false`. -/
def isDirHavingFile (fs : FS) (dirPath : Path) : Bool :=
  match readDirFS fs dirPath with
  | none => false
  | some entries => entries.any (fun e => !e.2)

/-! ## Path helpers (`fs/path.ts`)

The TypeScript splits strings only on the single characters `.`, `/`
and `\`, so `split` is modelled by a structurally recursive single-
character splitter (which agrees with JavaScript `split` for these
separators), and `toLowerCase` by the ASCII lowering it performs on
extension strings. -/
/-- `split(sep)` on the character list of a string. -/
def splitOnChar (sep : Char) : List Char → List (List Char)
  | [] => [[]]
  | c :: rest =>
    match splitOnChar sep rest with
    | [] => [[]]
    | g :: gs => if c = sep then [] :: g :: gs else (c :: g) :: gs

/-- `filePath.split(sep)` for a single-character separator. -/
def splitStr (sep : Char) (s : String) : List String :=
  (splitOnChar sep s.data).map (fun l => String.mk l)

/-- ASCII `toLowerCase` on one character. -/
def charToLower (c : Char) : Char :=
  if 65 ≤ c.toNat ∧ c.toNat ≤ 90 then Char.ofNat (c.toNat + 32) else c

/-- ASCII `toLowerCase`. -/
def lowerStr (s : String) : String :=
  String.mk (s.data.map charToLower)

/-- Join path components with `/`, as the TypeScript template literals do. -/
def joinPath (p : Path) : String :=
  String.intercalate "/" p

/-- `filePath.split('/').pop() || filePath.split('\\').pop() || 'file'`
(the file-name fallback chain of `moveFileRename`). -/
def lastComp (filePath : String) : String :=
  let a := (splitStr '/' filePath).getLastD ""
  if a ≠ "" then a
  else
    let b := (splitStr '\\' filePath).getLastD ""
    if b ≠ "" then b else "file"

/-- `getFileExtension`: text after the last dot, lowercased; empty when
there is no dot. -/
def getFileExtension (filePath : String) : String :=
  let parts := splitStr '.' filePath
  if parts.length < 2 then "" else lowerStr (parts.getLastD "")

/-- `getFileStem`: the base name with everything from the last dot on
stripped. -/
def getFileStem (filePath : String) : String :=
  let fileName :=
    let a := (splitStr '/' filePath).getLastD ""
    if a ≠ "" then a
    else
      let b := (splitStr '\\' filePath).getLastD ""
      if b ≠ "" then b else filePath
  let parts := splitStr '.' fileName
  if parts.length < 2 then fileName
  else String.intercalate "." parts.dropLast

/-! ## The tree-merge engine (`moveElementsAcrossDir` and helpers) -/
/-- `ReplaceAction`: per-file conflict action. -/
inductive ReplaceAction where
  | Skip
  | Replace
  | Rename
  | CheckReplace
deriving DecidableEq, Repr

/-- `ReplaceOptions`: per-extension action table with a default. -/
structure ReplaceOptions where
  ext : List (String × ReplaceAction)
  default : ReplaceAction
deriving DecidableEq, Repr

/-- `getActionForPath`: look the file's extension up in the table,
falling back to the default action. -/
def getActionForPath (options : ReplaceOptions) (filePath : String) :
    ReplaceAction :=
  match options.ext.lookup (getFileExtension filePath) with
  | some a => a
  | none => options.default

/-- Errors surfaced by the merge engine. -/
inductive MErr where
  /-- `'目标路径存在且不是目录'`: destination exists and is not a directory. -/
  | notDir
  /-- `'重复文件过多'`: collision-avoidance retry cap exhausted. -/
  | tooManyDup
  /-- An uncaught filesystem-call failure propagated out. -/
  | fsFail
  /-- The loop fuel ran out (modelling artefact, not a program error). -/
  | fuelOut
deriving DecidableEq, Repr

/-- The candidate name tried at attempt `count`:
`stem.ext` first, then `stem.2.ext`, `stem.3.ext`, … . -/
def candidateName (stem ext : String) (count : Nat) : String :=
  if count = 1 then stem ++ "." ++ ext
  else stem ++ "." ++ toString count ++ "." ++ ext

/-- The retry loop of `moveFileRename`: at attempt `count`, move `src`
to the candidate name if it is free, delete `src` if the occupant has
identical content, give up past 1000 attempts, otherwise try the next
candidate.  `fuel` is paired with `count` so that the recursion is
structural (the code's `while (true)` with its in-loop cap). -/
def moveFileRenameGo (src candDir : Path) (stem ext : String) :
    Nat → Nat → FS → Except MErr FS
  | _, 0, _ => Except.error MErr.tooManyDup
  | count, fuel + 1, fs =>
    let dst := candDir ++ [candidateName stem ext count]
    if existsFS fs dst then
      if isFileSameContent fs src dst then
        match removeFileE fs src with
        | some fs2 => Except.ok fs2
        | none => Except.error MErr.fsFail
      else if count > 1000 then Except.error MErr.tooManyDup
      else moveFileRenameGo src candDir stem ext (count + 1) fuel fs
    else
      match renameFS fs src dst with
      | some fs2 => Except.ok fs2
      | none => Except.error MErr.fsFail

/-- `moveFileRename(src, dstDir)`: collision-avoiding move of `src` into
the parent directory of `dstDir` (the argument is the full intended
destination path; its last component is dropped to get the directory). -/
def moveFileRename (fs : FS) (src dstPath : Path) : Except MErr FS :=
  let srcFileName := lastComp (joinPath src)
  let stem := getFileStem srcFileName
  let ext := getFileExtension srcFileName
  moveFileRenameGo src dstPath.dropLast stem ext 1 1001 fs

/-- `moveFile`: move one file according to its classified action. -/
def moveFile (fs : FS) (src dst : Path) (options : ReplaceOptions) :
    Except MErr FS :=
  match getActionForPath options (joinPath src) with
  | ReplaceAction.Replace =>
    match renameFS fs src dst with
    | some fs2 => Except.ok fs2
    | none => Except.error MErr.fsFail
  | ReplaceAction.Skip =>
    if existsFS fs dst then Except.ok fs
    else
      match renameFS fs src dst with
      | some fs2 => Except.ok fs2
      | none => Except.error MErr.fsFail
  | ReplaceAction.Rename => moveFileRename fs src dst
  | ReplaceAction.CheckReplace =>
    if existsFS fs dst then
      if isFileSameContent fs src dst then
        match renameFS fs src dst with
        | some fs2 => Except.ok fs2
        | none => Except.error MErr.fsFail
      else moveFileRename fs src dst
    else
      match renameFS fs src dst with
      | some fs2 => Except.ok fs2
      | none => Except.error MErr.fsFail

/-- `srcMeta.isFile` on a `stat` result. -/
def isFileAt (fs : FS) (p : Path) : Bool :=
  match statFS fs p with
  | some (FsItem.file _ _ _) => true
  | _ => false

/-- One classified worklist of a directory level: same-name subdirectory
pairs, direct subdirectory moves, and the three file stages. -/
structure Classified where
  subdirBoth : List (Path × Path)
  dirDirect : List (Path × Path)
  skipOps : List (Path × Path)
  renameOps : List (Path × Path)
  replaceOps : List (Path × Path)
deriving DecidableEq, Repr

/-- Classify the `(src, dst)` pairs of one directory level from their
prefetched metadata, exactly as `processDirectory` does (entries whose
source `stat` fails are dropped; files dispatch on the policy action,
`Replace` and `CheckReplace` sharing the default stage). -/
def classify (fs : FS) (options : ReplaceOptions)
    (pairs : List (Path × Path)) : Classified where
  subdirBoth := pairs.filter (fun e =>
    statFS fs e.1 = some FsItem.dir ∧ statFS fs e.2 = some FsItem.dir)
  dirDirect := pairs.filter (fun e =>
    statFS fs e.1 = some FsItem.dir ∧ statFS fs e.2 ≠ some FsItem.dir)
  skipOps := pairs.filter (fun e =>
    isFileAt fs e.1 = true ∧
      getActionForPath options (joinPath e.1) = ReplaceAction.Skip)
  renameOps := pairs.filter (fun e =>
    isFileAt fs e.1 = true ∧
      getActionForPath options (joinPath e.1) = ReplaceAction.Rename)
  replaceOps := pairs.filter (fun e =>
    isFileAt fs e.1 = true ∧
      getActionForPath options (joinPath e.1) ≠ ReplaceAction.Skip ∧
      getActionForPath options (joinPath e.1) ≠ ReplaceAction.Rename)

/-- Run one stage's operations in sequence (the code fires them with
`Promise.all`; within a stage they target disjoint destination paths). -/
def runOps (f : FS → Path → Path → Except MErr FS) :
    List (Path × Path) → FS → Except MErr FS
  | [], fs => Except.ok fs
  | op :: rest, fs =>
    match f fs op.1 op.2 with
    | Except.ok fs2 => runOps f rest fs2
    | Except.error e => Except.error e

/-- `processDirectory`: classify one level, run direct directory renames
(failures caught and logged), then the `Skip`, `Rename` and
`Replace`/`CheckReplace` file stages, and return the deferred same-name
subdirectory pairs. -/
def processDirectory (fs0 : FS) (fromDir toDir : Path)
    (replaceOptions : ReplaceOptions) :
    Except MErr (FS × List (Path × Path)) :=
  match readDirFS fs0 fromDir with
  | none => Except.error MErr.fsFail
  | some entries =>
    let pairs := entries.map (fun e => (fromDir ++ [e.1], toDir ++ [e.1]))
    let c := classify fs0 replaceOptions pairs
    let fs1 := c.dirDirect.foldl (fun fs sd =>
      match renameFS fs sd.1 sd.2 with
      | some fs2 => fs2
      | none => fs) fs0
    match runOps (fun fs s d =>
        if existsFS fs d then Except.ok fs
        else moveFile fs s d replaceOptions) c.skipOps fs1 with
    | Except.error e => Except.error e
    | Except.ok fs2 =>
      match runOps (fun fs s d => moveFileRename fs s d) c.renameOps fs2 with
      | Except.error e => Except.error e
      | Except.ok fs3 =>
        match runOps (fun fs s d => moveFile fs s d replaceOptions)
            c.replaceOps fs3 with
        | Except.error e => Except.error e
        | Except.ok fs4 => Except.ok (fs4, c.subdirBoth)

/-- One iteration of the merge worklist: process the popped pair, then
attempt the recursive cleanup of the source directory, which is
suppressed only when the default action is `Skip` and files remain
(cleanup failures are caught and logged). -/
def mergeIter (replaceOptions : ReplaceOptions) (fs : FS)
    (currentFrom currentTo : Path) :
    Except MErr (FS × List (Path × Path)) :=
  match processDirectory fs currentFrom currentTo replaceOptions with
  | Except.error e => Except.error e
  | Except.ok (fs1, subdirs) =>
    let hasFiles := isDirHavingFile fs1 currentFrom
    let skipCleanup :=
      replaceOptions.default = ReplaceAction.Skip ∧ hasFiles = true
    let fs2 :=
      if skipCleanup then fs1
      else
        match removeRecE fs1 currentFrom with
        | some f => f
        | none => fs1
    Except.ok (fs2, subdirs)

/-- The FIFO worklist loop of `moveElementsAcrossDir`. -/
def mergeLoop (replaceOptions : ReplaceOptions) :
    Nat → List (Path × Path) → FS → Except MErr FS
  | _, [], fs => Except.ok fs
  | 0, _ :: _, _ => Except.error MErr.fuelOut
  | fuel + 1, pair :: rest, fs =>
    match mergeIter replaceOptions fs pair.1 pair.2 with
    | Except.error e => Except.error e
    | Except.ok (fs2, subdirs) =>
      mergeLoop replaceOptions fuel (rest ++ subdirs) fs2

/-- `moveElementsAcrossDir(fromDir, toDir, replaceOptions)`: the merge
entry point with its fast paths — missing source, identical paths and
non-directory source are no-ops; a missing destination is a single whole
tree rename; a non-directory destination is an error; otherwise the
worklist is seeded with the root pair. -/
def moveElementsAcrossDir (fuel : Nat) (fs : FS) (fromDir toDir : Path)
    (replaceOptions : ReplaceOptions) : Except MErr FS :=
  match statFS fs fromDir with
  | none => Except.ok fs
  | some fromMeta =>
    if fromDir = toDir then Except.ok fs
    else if fromMeta ≠ FsItem.dir then Except.ok fs
    else if existsFS fs toDir = false then
      match renameFS fs fromDir toDir with
      | some fs2 => Except.ok fs2
      | none => Except.error MErr.fsFail
    else
      match statFS fs toDir with
      | some FsItem.dir => mergeLoop replaceOptions fuel [(fromDir, toDir)] fs
      | _ => Except.error MErr.notDir

/-! ## The one-way sync engine (`syncFolder`, `fs/sync.ts`) -/
/-- `SoftSyncExec`: what a sync does with a file that needs transfer. -/
inductive SoftSyncExec where
  | None
  | Copy
  | Move
deriving DecidableEq, Repr

/-- `FileCompareStrategy`: which identity checks are enabled. -/
structure FileCompareStrategy where
  checkSize : Bool
  checkMtime : Bool
  checkSha512 : Bool
deriving DecidableEq, Repr

/-- `CleanupStrategy`. -/
structure CleanupStrategy where
  removeDstExtra : Bool
  removeSrcSame : Bool
deriving DecidableEq, Repr

/-- `SoftSyncPreset`. -/
structure SoftSyncPreset where
  name : String
  allowSrcExts : List String
  disallowSrcExts : List String
  allowOtherExts : Bool
  noActivateExtBoundPairs : List (List String × List String)
  cleanup : CleanupStrategy
  fileCompare : FileCompareStrategy
  exec : SoftSyncExec
deriving DecidableEq, Repr

/-- `presetForAppend`: the append/drain sync preset — no destination
cleanup, size+hash comparison ignoring mtime, `removeSrcSame`, and no
transfer (`exec: None`). -/
def presetForAppend : SoftSyncPreset where
  name := "Sync preset (for update pack)"
  allowSrcExts := []
  disallowSrcExts := []
  allowOtherExts := true
  noActivateExtBoundPairs := []
  cleanup := { removeDstExtra := false, removeSrcSame := true }
  fileCompare := { checkSize := true, checkMtime := false, checkSha512 := true }
  exec := SoftSyncExec.None

/-- `presetDefault`: the mirror sync preset. -/
def presetDefault : SoftSyncPreset where
  name := "Local file sync preset"
  allowSrcExts := []
  disallowSrcExts := []
  allowOtherExts := true
  noActivateExtBoundPairs := []
  cleanup := { removeDstExtra := true, removeSrcSame := false }
  fileCompare := { checkSize := true, checkMtime := true, checkSha512 := false }
  exec := SoftSyncExec.Copy

/-- The extension filter of `syncFolder`: `allowOtherExts` as the
fallback, overridden to `true` by the allow list and to `false` by the
disallow list. -/
def extFilterOk (preset : SoftSyncPreset) (ext : String) : Bool :=
  let extOk0 := preset.allowOtherExts
  let extOk1 := if preset.allowSrcExts.contains ext then true else extOk0
  if preset.disallowSrcExts.contains ext then false else extOk1

/-- `dstPath.substring(0, dstPath.lastIndexOf('.')) + '.' + toExt`: the
"bound" candidate path, computed on the joined path string. -/
def boundCandidate (dstPath : String) (toExt : String) : String :=
  let parts := splitStr '.' dstPath
  if parts.length < 2 then "." ++ toExt
  else String.intercalate "." parts.dropLast ++ "." ++ toExt

/-- The bound-pair suppression check: the file is skipped when, for some
pair whose `from` extensions contain its extension, a file with one of
the `to` extensions already exists at the destination. -/
def boundCheck (fs : FS) (preset : SoftSyncPreset) (dstPath : Path)
    (ext : String) : Bool :=
  preset.noActivateExtBoundPairs.any (fun pr =>
    pr.1.contains ext ∧
      pr.2.any (fun toExt =>
        existsFS fs (splitStr '/' (boundCandidate (joinPath dstPath) toExt))))

/-- The identity comparison of `syncFolder` (the `dstFileExists` branch),
instrumented: the second component records whether the content-hash
comparison was reached.  `same` starts `true` and each enabled check
runs only while it is still `true` — the first mismatch short-circuits. -/
def decideSameT (fs : FS) (cmp : FileCompareStrategy)
    (srcPath dstPath : Path) : Bool × Bool :=
  let srcMd := (statFS fs srcPath).getD FsItem.dir
  let dstMd := (statFS fs dstPath).getD FsItem.dir
  let same1 := true
  let same2 :=
    if cmp.checkSize && same1 then decide (itemSize srcMd = itemSize dstMd)
    else same1
  let same3 :=
    if cmp.checkMtime && same2 then decide (itemMtime srcMd = itemMtime dstMd)
    else same2
  let same4 :=
    if cmp.checkSha512 && same3 then isFileSameContent fs srcPath dstPath
    else same3
  (same4, cmp.checkSha512 && same3)

/-- The transfer action on one file (`preset.exec` dispatch). -/
def syncExec (fs : FS) (preset : SoftSyncPreset) (srcPath dstPath : Path) :
    Except Unit FS :=
  match preset.exec with
  | SoftSyncExec.None => Except.ok fs
  | SoftSyncExec.Copy =>
    match copyFileE fs srcPath dstPath with
    | some fs2 => Except.ok fs2
    | none => Except.error ()
  | SoftSyncExec.Move =>
    match renameFS fs srcPath dstPath with
    | some fs2 => Except.ok fs2
    | none => Except.error ()

/-- The per-file body of `syncFolder`: extension filter, bound-pair
suppression, identity comparison, the transfer on absent-or-different,
and the source cleanup on present-and-same with `removeSrcSame`. -/
def syncFileStep (preset : SoftSyncPreset) (fs : FS)
    (srcPath dstPath : Path) (name : String) : Except Unit FS :=
  let ext := getFileExtension name
  if extFilterOk preset ext = false then Except.ok fs
  else if boundCheck fs preset dstPath ext then Except.ok fs
  else
    let dstFileExists := existsFS fs dstPath
    let same :=
      if dstFileExists then (decideSameT fs preset.fileCompare srcPath dstPath).1
      else dstFileExists
    match (if !dstFileExists || !same then syncExec fs preset srcPath dstPath
           else Except.ok fs) with
    | Except.error e => Except.error e
    | Except.ok fs1 =>
      if preset.cleanup.removeSrcSame && dstFileExists && same then
        match removeFileE fs1 srcPath with
        | some fs2 => Except.ok fs2
        | none => Except.error ()
      else Except.ok fs1

/-- One source entry of `syncFolder`: subdirectories get their
destination created when missing and are recursed into (`rec`); files go
through `syncFileStep`. -/
def syncEntryStep (preset : SoftSyncPreset)
    (rec : Path → Path → FS → Except Unit FS) (srcDir dstDir : Path)
    (e : String × Bool) (fs : FS) : Except Unit FS :=
  let srcPath := srcDir ++ [e.1]
  let dstPath := dstDir ++ [e.1]
  if e.2 then
    let fs1 := if existsFS fs dstPath then fs else mkdirFS fs dstPath
    rec srcPath dstPath fs1
  else syncFileStep preset fs srcPath dstPath e.1

/-- Process the source entries of one level in order. -/
def syncList (preset : SoftSyncPreset)
    (rec : Path → Path → FS → Except Unit FS) (srcDir dstDir : Path) :
    List (String × Bool) → FS → Except Unit FS
  | [], fs => Except.ok fs
  | e :: rest, fs =>
    match syncEntryStep preset rec srcDir dstDir e fs with
    | Except.error err => Except.error err
    | Except.ok fs2 => syncList preset rec srcDir dstDir rest fs2

/-- The `removeDstExtra` pass: destination entries (from the snapshot
taken at the start of the level) with no surviving source counterpart
are removed — directories recursively, files plainly. -/
def syncCleanupList (srcDir dstDir : Path) :
    List (String × Bool) → FS → Except Unit FS
  | [], fs => Except.ok fs
  | e :: rest, fs =>
    if existsFS fs (srcDir ++ [e.1]) then syncCleanupList srcDir dstDir rest fs
    else
      match (if e.2 then removeRecE fs (dstDir ++ [e.1])
             else removeFileE fs (dstDir ++ [e.1])) with
      | some fs2 => syncCleanupList srcDir dstDir rest fs2
      | none => Except.error ()

/-- `syncFolder(srcDir, dstDir, preset)`: read both directories, process
the source entries, then run the destination cleanup when enabled.
Structurally recursive on `fuel` (the recursion depth). -/
def syncFolderGo (preset : SoftSyncPreset) :
    Nat → Path → Path → FS → Except Unit FS
  | 0, _, _, _ => Except.error ()
  | fuel + 1, srcDir, dstDir, fs =>
    match readDirFS fs srcDir, readDirFS fs dstDir with
    | some srcEntries, some dstEntries =>
      (match syncList preset (syncFolderGo preset fuel) srcDir dstDir
          srcEntries fs with
       | Except.error e => Except.error e
       | Except.ok fs1 =>
         if preset.cleanup.removeDstExtra then
           syncCleanupList srcDir dstDir dstEntries fs1
         else Except.ok fs1)
    | _, _ => Except.error ()

/-- `syncFolder` entry point. -/
def syncFolder (preset : SoftSyncPreset) (fuel : Nat)
    (srcDir dstDir : Path) (fs : FS) : Except Unit FS :=
  syncFolderGo preset fuel srcDir dstDir fs

/-! ## The directory similarity scorer (`fs/similarity.ts`) -/
/-- The fixed media-extension allowlist. -/
def MEDIA_EXT_LIST : List String :=
  ["ogg", "wav", "flac", "mp4", "wmv", "avi", "mpg", "mpeg", "bmp", "jpg",
   "png"]

/-- `DirElements`: the stems collected from one directory. -/
structure DirElements where
  files : List String
  mediaStems : Finset String
  nonMediaStems : Finset String

/-- The loop body of `fetchDirElements`: directories are skipped; a
file's stem goes into the media or non-media stem set according to the
allowlist, and always into `files`. -/
def collectEntry (acc : DirElements) (e : String × Bool) : DirElements :=
  if e.2 then acc
  else
    let fileStem := getFileStem e.1
    let fileExt := getFileExtension e.1
    if MEDIA_EXT_LIST.contains fileExt then
      { acc with
        mediaStems := insert fileStem acc.mediaStems
        files := acc.files ++ [fileStem] }
    else
      { acc with
        nonMediaStems := insert fileStem acc.nonMediaStems
        files := acc.files ++ [fileStem] }

/-- `fetchDirElements`: collect the extension-stripped stems of the
plain files of a directory, split into media and non-media stems by the
allowlist; read errors are caught and yield empty elements. -/
def fetchDirElements (fs : FS) (dir : Path) : DirElements :=
  match readDirFS fs dir with
  | none => ⟨[], ∅, ∅⟩
  | some entries => entries.foldl collectEntry ⟨[], ∅, ∅⟩

/-- `bmsDirSimilarity`: `0` when either side has no files or no media
stems, otherwise the media-stem intersection size over the smaller
media-stem count. -/
def bmsDirSimilarity (fs : FS) (dirA dirB : Path) : ℚ :=
  let a := fetchDirElements fs dirA
  let b := fetchDirElements fs dirB
  if a.files.length = 0 ∨ a.mediaStems.card = 0 ∨ b.files.length = 0 ∨
      b.mediaStems.card = 0 then 0
  else
    ((a.mediaStems ∩ b.mediaStems).card : ℚ) /
      (min a.mediaStems.card b.mediaStems.card : ℚ)

/-- Concrete state for the C3 witness. -/
def w3fs : FS :=
  ⟨[(["src"], FsItem.dir), (["src", "x"], FsItem.file [1] 0 true),
    (["f.txt"], FsItem.file [9] 0 true), (["dst"], FsItem.dir)]⟩

/-! ## C1: the merge does not account for every source file -/
/-- State for C1: the source holds `a.txt` (content `[1]`), classified
`Skip` by extension, while the destination already holds a different
`a.txt` (content `[2]`); the policy default is `Replace`. -/
def c1fs : FS :=
  ⟨[(["src"], FsItem.dir), (["src", "a.txt"], FsItem.file [1] 0 true),
    (["dst"], FsItem.dir), (["dst", "a.txt"], FsItem.file [2] 0 true)]⟩

/-- Policy for C1: `txt` files are `Skip`, everything else `Replace`. -/
def c1opts : ReplaceOptions :=
  ⟨[("txt", ReplaceAction.Skip)], ReplaceAction.Replace⟩

/-! ## C5: a skipped file's directory is deleted by the cleanup -/
/-- State for C5: the staging side holds `keep.bms`, classified `Skip`,
and the library side already holds a different `keep.bms`. -/
def c5fs : FS :=
  ⟨[(["stage"], FsItem.dir),
    (["stage", "keep.bms"], FsItem.file [3] 0 true),
    (["lib"], FsItem.dir), (["lib", "keep.bms"], FsItem.file [4] 0 true)]⟩

/-- Policy for C5: `bms` files are `Skip`, everything else `Replace`. -/
def c5opts : ReplaceOptions :=
  ⟨[("bms", ReplaceAction.Skip)], ReplaceAction.Replace⟩

/-- Concrete state for the C8 witness: two readable files with the same
bytes but different mtimes. -/
def w8fs : FS :=
  ⟨[(["a"], FsItem.file [5, 6] 1 true), (["b"], FsItem.file [5, 6] 2 true)]⟩

/-- Concrete state for the C10 witness: two files with identical bytes,
the first unreadable. -/
def w10fs : FS :=
  ⟨[(["a"], FsItem.file [1] 0 false), (["b"], FsItem.file [1] 0 true)]⟩

/-- Concrete state for the C9 witness: `A` holds media files `x.ogg`,
`y.png` and a non-media `z.txt`; `B` holds `x.ogg` and `w.wav`; `C`
does not exist. -/
def w9fs : FS :=
  ⟨[(["A"], FsItem.dir),
    (["A", "x.ogg"], FsItem.file [] 0 true),
    (["A", "y.png"], FsItem.file [] 0 true),
    (["A", "z.txt"], FsItem.file [] 0 true),
    (["B"], FsItem.dir),
    (["B", "x.ogg"], FsItem.file [] 0 true),
    (["B", "w.wav"], FsItem.file [] 0 true)]⟩

/-- The candidate path at attempt `k`. -/
def candAt (candDir : Path) (stem ext : String) (k : Nat) : Path :=
  candDir ++ [candidateName stem ext k]

/-- Attempt `j` is blocked: the candidate name is occupied by something
that is not content-identical to the source. -/
def blockedAt (fs : FS) (src candDir : Path) (stem ext : String)
    (j : Nat) : Prop :=
  existsFS fs (candAt candDir stem ext j) = true ∧
    isFileSameContent fs src (candAt candDir stem ext j) = false

/-- The candidate path tried at attempt `k` by
`moveFileRename(src, dstPath)`. -/
def renameCand (src dstPath : Path) (k : Nat) : Path :=
  candAt dstPath.dropLast (getFileStem (lastComp (joinPath src)))
    (getFileExtension (lastComp (joinPath src))) k

/-- Attempt `k` of `moveFileRename(src, dstPath)` is blocked. -/
def renameBlocked (fs : FS) (src dstPath : Path) (k : Nat) : Prop :=
  existsFS fs (renameCand src dstPath k) = true ∧
    isFileSameContent fs src (renameCand src dstPath k) = false

/-- Concrete state for the C4 witness: `n.bms` exists on both sides
with identical bytes; `m.bms` exists on both sides with different
bytes; `p.bms` only at the source. -/
def w4fs : FS :=
  ⟨[(["u"], FsItem.dir),
    (["u", "n.bms"], FsItem.file [1] 0 true),
    (["u", "m.bms"], FsItem.file [2] 0 true),
    (["u", "p.bms"], FsItem.file [3] 0 true),
    (["v"], FsItem.dir),
    (["v", "n.bms"], FsItem.file [1] 7 true),
    (["v", "m.bms"], FsItem.file [4] 0 true)]⟩

/-- Policy for the C4 witness. -/
def w4opts : ReplaceOptions :=
  ⟨[("bms", ReplaceAction.CheckReplace)], ReplaceAction.Replace⟩

/-- Concrete state for the C2 witness: the target name `a.txt` is
occupied by a file with different content. -/
def w2fs : FS :=
  ⟨[(["s"], FsItem.dir), (["s", "a.txt"], FsItem.file [1] 0 true),
    (["d"], FsItem.dir), (["d", "a.txt"], FsItem.file [2] 0 true)]⟩

/-- Concrete state for the C6 witness: under the append/drain preset,
`x.txt` is present and identical on both sides, `y.txt` present and
different, `z.txt` absent at the destination. -/
def w6fs : FS :=
  ⟨[(["s"], FsItem.dir),
    (["s", "x.txt"], FsItem.file [1] 0 true),
    (["s", "y.txt"], FsItem.file [2] 0 true),
    (["s", "z.txt"], FsItem.file [3] 0 true),
    (["d"], FsItem.dir),
    (["d", "x.txt"], FsItem.file [1] 5 true),
    (["d", "y.txt"], FsItem.file [9, 9] 0 true)]⟩

/-! ## C7 infrastructure: well-formed states and directory listings -/
/-- A well-formed filesystem state: entry keys are distinct and
non-empty, and every proper prefix of an entry's key is a directory. -/
def WF (fs : FS) : Prop :=
  (fs.entries.map Prod.fst).Nodup ∧
  (∀ e ∈ fs.entries, e.1 ≠ []) ∧
  (∀ e ∈ fs.entries, ∀ n, 0 < n → n < e.1.length →
    statFS fs (e.1.take n) = some FsItem.dir)

/-- The pointwise effect of one successful append/drain sync run:
source files identical to their counterpart vanish, everything else on
the source side is kept; the destination side only ever gains
directories; paths outside both subtrees are untouched. -/
def DrainRel (fs fs1 : FS) (src dst : Path) : Prop :=
  (∀ p, src <+: p → p ≠ src →
      (∀ c t r, statFS fs p = some (FsItem.file c t r) →
        statFS fs1 p =
          (if isFileSameContent fs p (dst ++ p.drop src.length) = true
           then none else some (FsItem.file c t r)))
    ∧ (statFS fs p = some FsItem.dir → statFS fs1 p = some FsItem.dir)
    ∧ (statFS fs p = none → statFS fs1 p = none))
  ∧ (∀ q, ¬ src <+: q → ¬ dst <+: q → statFS fs1 q = statFS fs q)
  ∧ (∀ q it, dst <+: q → statFS fs q = some it → statFS fs1 q = some it)
  ∧ (∀ q, dst <+: q → statFS fs q = none →
      statFS fs1 q = none ∨ statFS fs1 q = some FsItem.dir)
  ∧ (∀ p, src <+: p → statFS fs p = some FsItem.dir →
      statFS fs1 (dst ++ p.drop src.length) = some FsItem.dir)
  ∧ statFS fs1 src = some FsItem.dir

/-- The induction statement for `syncFolderGo` under `presetForAppend`:
a successful run realises `DrainRel`, keeps well-formedness, and bounds
the depth of the source tree by the fuel. -/
def DrainMaster (fuel : Nat) : Prop :=
  ∀ src dst fs fs1, WF fs → ¬ src <+: dst → ¬ dst <+: src →
    statFS fs src = some FsItem.dir → statFS fs dst = some FsItem.dir →
    syncFolderGo presetForAppend fuel src dst fs = Except.ok fs1 →
    DrainRel fs fs1 src dst ∧ WF fs1 ∧
      (∀ q, src <+: q → statFS fs q = some FsItem.dir →
        q.length < src.length + fuel)

/-- The effect of one `syncEntryStep` of the append/drain run on the
child `e` of `src`, phrased like `DrainRel` but localised to the two
child subtrees. -/
@[reducible] def EntryDrain (f : Nat) (src dst : Path) (e : String × Bool)
    (fsc fsc2 : FS) : Prop :=
  (∀ p, (src ++ [e.1]) <+: p →
      (∀ c t r, statFS fsc p = some (FsItem.file c t r) →
        statFS fsc2 p =
          (if isFileSameContent fsc p (dst ++ p.drop src.length) = true
           then none else some (FsItem.file c t r)))
    ∧ (statFS fsc p = some FsItem.dir → statFS fsc2 p = some FsItem.dir)
    ∧ (statFS fsc p = none → statFS fsc2 p = none))
  ∧ (∀ q, ¬ (src ++ [e.1]) <+: q → ¬ (dst ++ [e.1]) <+: q →
      statFS fsc2 q = statFS fsc q)
  ∧ (∀ q it, (dst ++ [e.1]) <+: q → statFS fsc q = some it →
      statFS fsc2 q = some it)
  ∧ (∀ q, (dst ++ [e.1]) <+: q → statFS fsc q = none →
      statFS fsc2 q = none ∨ statFS fsc2 q = some FsItem.dir)
  ∧ (∀ p, (src ++ [e.1]) <+: p → statFS fsc p = some FsItem.dir →
      statFS fsc2 (dst ++ p.drop src.length) = some FsItem.dir)
  ∧ WF fsc2
  ∧ (∀ q, (src ++ [e.1]) <+: q → statFS fsc q = some FsItem.dir →
      q.length < src.length + (f + 1))

/-- The cumulative effect of `syncList` of the append/drain run over a
batch of children of `src`. -/
@[reducible] def ListDrain (f : Nat) (src dst : Path)
    (L2 : List (String × Bool)) (fsc fsOut : FS) : Prop :=
  (∀ e ∈ L2, ∀ p, (src ++ [e.1]) <+: p →
      (∀ c t r, statFS fsc p = some (FsItem.file c t r) →
        statFS fsOut p =
          (if isFileSameContent fsc p (dst ++ p.drop src.length) = true
           then none else some (FsItem.file c t r)))
    ∧ (statFS fsc p = some FsItem.dir → statFS fsOut p = some FsItem.dir)
    ∧ (statFS fsc p = none → statFS fsOut p = none))
  ∧ (∀ q, (∀ e ∈ L2, ¬ (src ++ [e.1]) <+: q) →
      (∀ e ∈ L2, ¬ (dst ++ [e.1]) <+: q) → statFS fsOut q = statFS fsc q)
  ∧ (∀ e ∈ L2, ∀ q it, (dst ++ [e.1]) <+: q → statFS fsc q = some it →
      statFS fsOut q = some it)
  ∧ (∀ e ∈ L2, ∀ q, (dst ++ [e.1]) <+: q → statFS fsc q = none →
      statFS fsOut q = none ∨ statFS fsOut q = some FsItem.dir)
  ∧ (∀ e ∈ L2, ∀ p, (src ++ [e.1]) <+: p →
      statFS fsc p = some FsItem.dir →
      statFS fsOut (dst ++ p.drop src.length) = some FsItem.dir)
  ∧ WF fsOut
  ∧ (∀ e ∈ L2, ∀ q, (src ++ [e.1]) <+: q →
      statFS fsc q = some FsItem.dir → q.length < src.length + (f + 1))

/-- Witness state for C7: a staging directory with one file identical
to its counterpart, one differing, and an identical file in a
subdirectory. -/
def w7fs : FS := ⟨[(["s"], FsItem.dir),
  (["s", "same.txt"], FsItem.file [1] 0 true),
  (["s", "diff.txt"], FsItem.file [2] 0 true),
  (["s", "sub"], FsItem.dir),
  (["s", "sub", "deep.txt"], FsItem.file [3] 0 true),
  (["d"], FsItem.dir),
  (["d", "same.txt"], FsItem.file [1] 9 true),
  (["d", "diff.txt"], FsItem.file [4] 0 true),
  (["d", "sub"], FsItem.dir),
  (["d", "sub", "deep.txt"], FsItem.file [3] 5 true)]⟩

/-- The drained state the C7 witness run produces. -/
def w7fs1 : FS := ⟨[(["s"], FsItem.dir),
  (["s", "diff.txt"], FsItem.file [2] 0 true),
  (["s", "sub"], FsItem.dir),
  (["d"], FsItem.dir),
  (["d", "same.txt"], FsItem.file [1] 9 true),
  (["d", "diff.txt"], FsItem.file [4] 0 true),
  (["d", "sub"], FsItem.dir),
  (["d", "sub", "deep.txt"], FsItem.file [3] 5 true)]⟩

/-! ## C3: merge dispatch fast paths -/
/-- C3: `merge(sourceDir, destDir, policy)` dispatches on its
preconditions exactly as specified: missing source, equal paths and
non-directory source are no-ops returning success with the state
untouched; a missing destination makes the call exactly a single
whole-tree rename; an existing non-directory destination is an error. -/
theorem merge_dispatch_fast_paths (fuel : Nat) (fs : FS)
    (fromDir toDir : Path) (opts : ReplaceOptions) :
    (statFS fs fromDir = none →
      moveElementsAcrossDir fuel fs fromDir toDir opts = Except.ok fs)
  ∧ (fromDir = toDir →
      moveElementsAcrossDir fuel fs fromDir toDir opts = Except.ok fs)
  ∧ (∀ c t r, statFS fs fromDir = some (FsItem.file c t r) →
      moveElementsAcrossDir fuel fs fromDir toDir opts = Except.ok fs)
  ∧ (statFS fs fromDir = some FsItem.dir → fromDir ≠ toDir →
      existsFS fs toDir = false →
      moveElementsAcrossDir fuel fs fromDir toDir opts =
        match renameFS fs fromDir toDir with
        | some fs2 => Except.ok fs2
        | none => Except.error MErr.fsFail)
  ∧ (∀ c t r, statFS fs fromDir = some FsItem.dir → fromDir ≠ toDir →
      statFS fs toDir = some (FsItem.file c t r) →
      moveElementsAcrossDir fuel fs fromDir toDir opts =
        Except.error MErr.notDir) := by
  refine ⟨fun h => ?_, fun h => ?_, fun c t r h => ?_,
    fun h hne hto => ?_, fun c t r h hne hto => ?_⟩
  · simp [moveElementsAcrossDir, h]
  · unfold moveElementsAcrossDir
    cases hs : statFS fs fromDir with
    | none => rfl
    | some it => simp [h]
  · by_cases heq : fromDir = toDir
    · unfold moveElementsAcrossDir
      rw [h]
      simp [heq]
    · simp [moveElementsAcrossDir, h, heq]
  · simp [moveElementsAcrossDir, h, hne, hto]
  · have hex : existsFS fs toDir = true := by
      unfold existsFS
      rw [hto]
      rfl
    simp [moveElementsAcrossDir, h, hne, hex, hto]

/-- Witness for C3: each dispatch case discharged at a concrete state. -/
theorem merge_dispatch_fast_paths_witness :
    (moveElementsAcrossDir 1 w3fs ["nope"] ["dst"] ⟨[], ReplaceAction.Replace⟩ =
      Except.ok w3fs)
  ∧ (moveElementsAcrossDir 1 w3fs ["src"] ["src"] ⟨[], ReplaceAction.Replace⟩ =
      Except.ok w3fs)
  ∧ (moveElementsAcrossDir 1 w3fs ["f.txt"] ["dst"] ⟨[], ReplaceAction.Replace⟩ =
      Except.ok w3fs)
  ∧ (moveElementsAcrossDir 1 w3fs ["src"] ["newdst"] ⟨[], ReplaceAction.Replace⟩ =
      match renameFS w3fs ["src"] ["newdst"] with
      | some fs2 => Except.ok fs2
      | none => Except.error MErr.fsFail)
  ∧ (moveElementsAcrossDir 1 w3fs ["src"] ["f.txt"] ⟨[], ReplaceAction.Replace⟩ =
      Except.error MErr.notDir) :=
  ⟨(merge_dispatch_fast_paths 1 w3fs ["nope"] ["dst"] _).1 (by decide),
   (merge_dispatch_fast_paths 1 w3fs ["src"] ["src"] _).2.1 rfl,
   (merge_dispatch_fast_paths 1 w3fs ["f.txt"] ["dst"] _).2.2.1 [9] 0 true
     (by decide),
   (merge_dispatch_fast_paths 1 w3fs ["src"] ["newdst"] _).2.2.2.1 (by decide)
     (by decide) (by decide),
   (merge_dispatch_fast_paths 1 w3fs ["src"] ["f.txt"] _).2.2.2.2 [9] 0 true
     (by decide) (by decide) (by decide)⟩

/-- C1: the merge completes successfully, yet the `Skip`-classified
source file `src/a.txt` — never moved, not content-identical to its
destination counterpart (`[1] ≠ [2]`), and supposedly "left untouched in
place" — is deleted by the per-directory cleanup, and its content
survives nowhere in the resulting state (shown by the exact final
entry list).  This refutes the accounting guarantee. -/
theorem merge_cleanup_deletes_unaccounted_source_file :
    moveElementsAcrossDir 5 c1fs ["src"] ["dst"] c1opts =
      Except.ok ⟨[(["dst"], FsItem.dir),
                  (["dst", "a.txt"], FsItem.file [2] 0 true)]⟩
  ∧ statFS c1fs ["src", "a.txt"] = some (FsItem.file [1] 0 true)
  ∧ getActionForPath c1opts (joinPath ["src", "a.txt"]) = ReplaceAction.Skip
  ∧ isFileSameContent c1fs ["src", "a.txt"] ["dst", "a.txt"] = false := by
  refine ⟨by decide, by decide, by decide, by decide⟩

/-- C5: for a `Skip`-classified file whose destination name is taken,
the per-file operation does leave it in place, but the merge then
deletes both the file and its containing source directory through the
recursive cleanup (the final state holds only the destination entries),
refuting "nothing is deleted — neither the skipped file itself nor its
containing source directory". -/
theorem merge_skip_leftover_deleted :
    moveElementsAcrossDir 5 c5fs ["stage"] ["lib"] c5opts =
      Except.ok ⟨[(["lib"], FsItem.dir),
                  (["lib", "keep.bms"], FsItem.file [4] 0 true)]⟩
  ∧ statFS c5fs ["stage", "keep.bms"] = some (FsItem.file [3] 0 true)
  ∧ getActionForPath c5opts (joinPath ["stage", "keep.bms"]) =
      ReplaceAction.Skip
  ∧ existsFS c5fs ["lib", "keep.bms"] = true := by
  refine ⟨by decide, by decide, by decide, by decide⟩

/-! ## C8: size gate and completeness of the content comparison -/
/-- C8: the content-identity check reaches the digest computation only
when both `stat`s succeeded and reported equal sizes (files differing in
size are never hashed), and it returns `true` on every pair of readable
files with identical content — zero false negatives. -/
theorem fileSameContent_size_gate_and_completeness (fs : FS)
    (f1 f2 : Path) :
    ((isFileSameContentT fs f1 f2).2 = true →
      ∃ m1 m2, statE fs f1 = Except.ok m1 ∧ statE fs f2 = Except.ok m2 ∧
        itemSize m1 = itemSize m2)
  ∧ (∀ c t1 t2, statFS fs f1 = some (FsItem.file c t1 true) →
      statFS fs f2 = some (FsItem.file c t2 true) →
      isFileSameContent fs f1 f2 = true) := by
  constructor
  · intro h
    unfold isFileSameContentT at h
    cases h1 : statE fs f1 with
    | error e => rw [h1] at h; simp at h
    | ok m1 =>
      cases h2 : statE fs f2 with
      | error e => rw [h1, h2] at h; simp at h
      | ok m2 =>
        rw [h1, h2] at h
        by_cases hsz : itemSize m1 = itemSize m2
        · exact ⟨m1, m2, rfl, rfl, hsz⟩
        · simp [hsz] at h
  · intro c t1 t2 h1 h2
    unfold isFileSameContent isFileSameContentE isFileSameContentT statE
      calculateFileHash readFileE
    rw [h1, h2]
    simp [itemSize]

/-- Witness for C8 at a concrete state. -/
theorem fileSameContent_size_gate_and_completeness_witness :
    (∃ m1 m2, statE w8fs ["a"] = Except.ok m1 ∧
      statE w8fs ["b"] = Except.ok m2 ∧ itemSize m1 = itemSize m2)
  ∧ isFileSameContent w8fs ["a"] ["b"] = true :=
  ⟨(fileSameContent_size_gate_and_completeness w8fs ["a"] ["b"]).1
      (by decide),
   (fileSameContent_size_gate_and_completeness w8fs ["a"] ["b"]).2 [5, 6] 1 2
      (by decide) (by decide)⟩

/-! ## C10: the content comparison never throws -/
/-- C10: the content-identity check catches every failure of its body
and reports `false` instead of propagating it; in particular a file
whose read fails makes even an identical pair compare unequal. -/
theorem fileSameContent_catches_errors (fs : FS) (f1 f2 : Path) :
    (∀ e, isFileSameContentE fs f1 f2 = Except.error e →
      isFileSameContent fs f1 f2 = false)
  ∧ (∀ c t1 t2 r2, statFS fs f1 = some (FsItem.file c t1 false) →
      statFS fs f2 = some (FsItem.file c t2 r2) →
      isFileSameContent fs f1 f2 = false ∧
        isFileSameContentE fs f1 f2 = Except.error ()) := by
  constructor
  · intro e h
    unfold isFileSameContent
    rw [h]
  · intro c t1 t2 r2 h1 h2
    have hE : isFileSameContentE fs f1 f2 = Except.error () := by
      unfold isFileSameContentE isFileSameContentT statE calculateFileHash
        readFileE
      rw [h1, h2]
      cases r2 <;> simp [itemSize]
    refine ⟨?_, hE⟩
    unfold isFileSameContent
    rw [hE]

/-- Witness for C10 at a concrete state. -/
theorem fileSameContent_catches_errors_witness :
    isFileSameContent w10fs ["a"] ["b"] = false ∧
      isFileSameContentE w10fs ["a"] ["b"] = Except.error () :=
  ⟨(fileSameContent_catches_errors w10fs ["a"] ["b"]).1 () (by decide),
   ((fileSameContent_catches_errors w10fs ["a"] ["b"]).2 [1] 0 0 true
      (by decide) (by decide)).2⟩

/-! ## C9: the directory similarity score -/
/-- Helper: the stem collector never has more media stems than files. -/
theorem collectEntry_card_le (l : List (String × Bool)) :
    ∀ acc : DirElements, acc.mediaStems.card ≤ acc.files.length →
      (l.foldl collectEntry acc).mediaStems.card ≤
        (l.foldl collectEntry acc).files.length := by
  induction l with
  | nil => intro acc h; exact h
  | cons e rest ih =>
    intro acc h
    apply ih
    unfold collectEntry
    by_cases he : e.2 = true
    · simp [he, h]
    · by_cases hm : MEDIA_EXT_LIST.contains (getFileExtension e.1) = true
      · simp only [he, hm, if_true, if_false, Bool.false_eq_true,
          List.length_append, List.length_singleton]
        have := Finset.card_insert_le (getFileStem e.1) acc.mediaStems
        omega
      · simp only [he, hm, if_true, if_false, Bool.false_eq_true,
          List.length_append, List.length_singleton]
        omega

/-- Helper: a directory with a media stem has at least one file. -/
theorem fetchDirElements_files_nonzero (fs : FS) (d : Path)
    (h : (fetchDirElements fs d).mediaStems.card ≠ 0) :
    (fetchDirElements fs d).files.length ≠ 0 := by
  unfold fetchDirElements at h ⊢
  cases hr : readDirFS fs d with
  | none => rw [hr] at h; simp at h
  | some entries =>
    rw [hr] at h
    simp only at h ⊢
    have := collectEntry_card_le entries ⟨[], ∅, ∅⟩ (by simp)
    omega

/-- C9: the content-similarity score is exactly
`|mediaStems(A) ∩ mediaStems(B)| / min(|mediaStems(A)|, |mediaStems(B)|)`
when both sides have qualifying media stems, `0` when either side has
none, and `1` on a self-comparison with at least one media stem. -/
theorem bmsDirSimilarity_spec (fs : FS) (dirA dirB : Path) :
    ((fetchDirElements fs dirA).mediaStems.card ≠ 0 →
     (fetchDirElements fs dirB).mediaStems.card ≠ 0 →
      bmsDirSimilarity fs dirA dirB =
        (((fetchDirElements fs dirA).mediaStems ∩
            (fetchDirElements fs dirB).mediaStems).card : ℚ) /
          (min (fetchDirElements fs dirA).mediaStems.card
            (fetchDirElements fs dirB).mediaStems.card : ℚ))
  ∧ ((fetchDirElements fs dirA).mediaStems.card = 0 ∨
      (fetchDirElements fs dirB).mediaStems.card = 0 →
      bmsDirSimilarity fs dirA dirB = 0)
  ∧ ((fetchDirElements fs dirA).mediaStems.card ≠ 0 →
      bmsDirSimilarity fs dirA dirA = 1) := by
  refine ⟨fun hA hB => ?_, fun h => ?_, fun hA => ?_⟩
  · have hfA := fetchDirElements_files_nonzero fs dirA hA
    have hfB := fetchDirElements_files_nonzero fs dirB hB
    unfold bmsDirSimilarity
    simp [hA, hB, hfA, hfB]
  · unfold bmsDirSimilarity
    rcases h with h | h <;> simp [h]
  · have hfA := fetchDirElements_files_nonzero fs dirA hA
    unfold bmsDirSimilarity
    simp only [hA, hfA, or_self, if_false, Finset.inter_self, min_self,
      or_false, false_or]
    exact div_self (by exact_mod_cast hA)

/-! ## C2: the collision-avoiding rename loop -/
/-- Helper: a prefix of `l ++ [a]` is a prefix of `l` or the whole list. -/
theorem prefix_concat_cases {α : Type} {l1 l2 : List α} {a : α}
    (h : l1 <+: l2 ++ [a]) : l1 <+: l2 ∨ l1 = l2 ++ [a] := by
  by_cases heq : l1.length = l2.length + 1
  · right
    exact h.eq_of_length (by simpa using heq)
  · left
    have hle : l1.length ≤ l2.length := by
      have := h.length_le
      simp at this
      omega
    have h2 : l1 <+: (l2 ++ [a]).take l2.length :=
      (List.prefix_take_iff).mpr ⟨h, hle⟩
    rwa [List.take_left] at h2

/-- Helper: `rename` onto a free path with an existing parent directory
succeeds and is exactly the subtree graft. -/
theorem renameFS_to_free (fs : FS) (src dst : Path)
    (hsrc : (statFS fs src).isSome = true) (hdst : statFS fs dst = none)
    (hparent : statFS fs dst.dropLast = some FsItem.dir)
    (hnp : ¬ src <+: dst) :
    renameFS fs src dst = some (graftTree fs src dst) := by
  unfold renameFS
  cases hs : statFS fs src with
  | none => rw [hs] at hsrc; simp at hsrc
  | some it =>
    have hne : src ≠ dst := by
      intro h
      rw [h, hdst] at hs
      cases hs
    simp [hne, hparent, hnp, hdst]

/-- Helper: the retry loop of `moveFileRename`, from any attempt number,
terminates in one of exactly three ways — a rename at the first free
candidate, a source deletion at the first content-identical occupant, or
the `ExhaustedRetries` error with every remaining attempt up to 1001
blocked. -/
theorem moveFileRenameGo_trichotomy (fs : FS) (src candDir : Path)
    (stem ext : String) :
    ∀ fuel count, 1 ≤ count → count + fuel = 1002 →
    (∃ k, count ≤ k ∧ k ≤ 1001 ∧
        existsFS fs (candAt candDir stem ext k) = false ∧
        (∀ j, count ≤ j → j < k → blockedAt fs src candDir stem ext j) ∧
        moveFileRenameGo src candDir stem ext count fuel fs =
          (match renameFS fs src (candAt candDir stem ext k) with
           | some fs2 => Except.ok fs2
           | none => Except.error MErr.fsFail))
  ∨ (∃ k, count ≤ k ∧ k ≤ 1001 ∧
        existsFS fs (candAt candDir stem ext k) = true ∧
        isFileSameContent fs src (candAt candDir stem ext k) = true ∧
        (∀ j, count ≤ j → j < k → blockedAt fs src candDir stem ext j) ∧
        moveFileRenameGo src candDir stem ext count fuel fs =
          (match removeFileE fs src with
           | some fs2 => Except.ok fs2
           | none => Except.error MErr.fsFail))
  ∨ ((∀ j, count ≤ j → j ≤ 1001 → blockedAt fs src candDir stem ext j) ∧
        moveFileRenameGo src candDir stem ext count fuel fs =
          Except.error MErr.tooManyDup) := by
  intro fuel
  induction fuel with
  | zero =>
    intro count h1 h2
    right; right
    exact ⟨fun j hj1 hj2 => absurd (le_trans hj1 hj2) (by omega), rfl⟩
  | succ f ih =>
    intro count h1 h2
    have hcle : count ≤ 1001 := by omega
    by_cases hex : existsFS fs (candAt candDir stem ext count) = true
    · by_cases hsame :
          isFileSameContent fs src (candAt candDir stem ext count) = true
      · right; left
        refine ⟨count, le_refl _, hcle, hex, hsame,
          fun j hj1 hj2 => absurd (lt_of_le_of_lt hj1 hj2) (lt_irrefl _), ?_⟩
        unfold candAt at hex hsame
        simp [moveFileRenameGo, hex, hsame]
      · have hsame2 :
            isFileSameContent fs src (candAt candDir stem ext count) = false :=
          Bool.not_eq_true _ ▸ Bool.eq_false_iff.mpr hsame
        by_cases hcap : count > 1000
        · right; right
          have hc : count = 1001 := by omega
          refine ⟨fun j hj1 hj2 => ?_, ?_⟩
          · have : j = count := by omega
            rw [this]
            exact ⟨hex, hsame2⟩
          · unfold candAt at hex hsame2
            simp [moveFileRenameGo, hex, hsame2, hcap]
        · have hstep : moveFileRenameGo src candDir stem ext count (f + 1) fs =
              moveFileRenameGo src candDir stem ext (count + 1) f fs := by
            unfold candAt at hex hsame2
            simp [moveFileRenameGo, hex, hsame2, hcap]
          have hblk0 : blockedAt fs src candDir stem ext count := ⟨hex, hsame2⟩
          rcases ih (count + 1) (by omega) (by omega) with
            ⟨k, hk1, hk2, hfree, hblock, hres⟩ |
            ⟨k, hk1, hk2, hocc, hsm, hblock, hres⟩ | ⟨hall, hres⟩
          · left
            refine ⟨k, by omega, hk2, hfree, fun j hj1 hj2 => ?_,
              by rw [hstep, hres]⟩
            by_cases hj : j = count
            · rw [hj]; exact hblk0
            · exact hblock j (by omega) hj2
          · right; left
            refine ⟨k, by omega, hk2, hocc, hsm, fun j hj1 hj2 => ?_,
              by rw [hstep, hres]⟩
            by_cases hj : j = count
            · rw [hj]; exact hblk0
            · exact hblock j (by omega) hj2
          · right; right
            refine ⟨fun j hj1 hj2 => ?_, by rw [hstep, hres]⟩
            by_cases hj : j = count
            · rw [hj]; exact hblk0
            · exact hall j (by omega) hj2
    · left
      have hex2 : existsFS fs (candAt candDir stem ext count) = false :=
        Bool.not_eq_true _ ▸ Bool.eq_false_iff.mpr hex
      refine ⟨count, le_refl _, hcle, hex2,
        fun j hj1 hj2 => absurd (lt_of_le_of_lt hj1 hj2) (lt_irrefl _), ?_⟩
      unfold candAt at hex2
      simp [moveFileRenameGo, candAt, hex2]

/-- C2: the collision-avoiding rename on an existing source file always
terminates in one of exactly three ways: (a) the source is moved
(grafted) to the first free candidate name `stem.ext`, `stem.2.ext`, …,
every earlier candidate being occupied by a non-identical file; (b) the
source is deleted as a true duplicate when the occupant of the first
non-blocked candidate is content-identical; (c) every candidate up to
the attempt cap (1001 names tried, cap 1000 exceeded) is occupied by a
non-identical file and the call fails with the `ExhaustedRetries`
error `'重复文件过多'` instead of succeeding or looping forever. -/
theorem moveFileRename_trichotomy (fs : FS) (src dstPath : Path)
    (c : List Nat) (t : Int) (r : Bool)
    (hsrc : statFS fs src = some (FsItem.file c t r))
    (hdir : statFS fs dstPath.dropLast = some FsItem.dir)
    (hnp : ¬ src <+: dstPath.dropLast) :
    (∃ k, 1 ≤ k ∧ k ≤ 1001 ∧
        existsFS fs (renameCand src dstPath k) = false ∧
        (∀ j, 1 ≤ j → j < k → renameBlocked fs src dstPath j) ∧
        moveFileRename fs src dstPath =
          Except.ok (graftTree fs src (renameCand src dstPath k)))
  ∨ (∃ k, 1 ≤ k ∧ k ≤ 1001 ∧
        existsFS fs (renameCand src dstPath k) = true ∧
        isFileSameContent fs src (renameCand src dstPath k) = true ∧
        (∀ j, 1 ≤ j → j < k → renameBlocked fs src dstPath j) ∧
        moveFileRename fs src dstPath = Except.ok (eraseTree fs src))
  ∨ ((∀ j, 1 ≤ j → j ≤ 1001 → renameBlocked fs src dstPath j) ∧
        moveFileRename fs src dstPath = Except.error MErr.tooManyDup) := by
  have hmv : moveFileRename fs src dstPath =
      moveFileRenameGo src dstPath.dropLast
        (getFileStem (lastComp (joinPath src)))
        (getFileExtension (lastComp (joinPath src))) 1 1001 fs := rfl
  have hsome : (statFS fs src).isSome = true := by rw [hsrc]; rfl
  rcases moveFileRenameGo_trichotomy fs src dstPath.dropLast
      (getFileStem (lastComp (joinPath src)))
      (getFileExtension (lastComp (joinPath src))) 1001 1 (le_refl _)
      (by omega) with
    ⟨k, hk1, hk2, hfree, hblock, hres⟩ |
    ⟨k, hk1, hk2, hocc, hsm, hblock, hres⟩ | ⟨hall, hres⟩
  · left
    have hfree2 : existsFS fs (renameCand src dstPath k) = false := hfree
    refine ⟨k, hk1, hk2, hfree2, hblock, ?_⟩
    have hdstnone : statFS fs (renameCand src dstPath k) = none := by
      unfold existsFS at hfree2
      cases hx : statFS fs (renameCand src dstPath k) with
      | none => rfl
      | some it => rw [hx] at hfree2; simp at hfree2
    have hne : src ≠ renameCand src dstPath k := by
      intro he
      rw [← he, hsrc] at hdstnone
      cases hdstnone
    have hpar : statFS fs (renameCand src dstPath k).dropLast =
        some FsItem.dir := by
      unfold renameCand candAt
      rwa [List.dropLast_concat]
    have hnp2 : ¬ src <+: renameCand src dstPath k := by
      intro hp
      unfold renameCand candAt at hp
      rcases prefix_concat_cases hp with h | h
      · exact hnp h
      · exact hne h
    rw [hmv, hres]
    show (match renameFS fs src (renameCand src dstPath k) with
          | some fs2 => Except.ok fs2
          | none => Except.error MErr.fsFail) =
        Except.ok (graftTree fs src (renameCand src dstPath k))
    rw [renameFS_to_free fs src (renameCand src dstPath k)
      hsome hdstnone hpar hnp2]
  · right; left
    refine ⟨k, hk1, hk2, hocc, hsm, hblock, ?_⟩
    have hrem : removeFileE fs src = some (eraseTree fs src) := by
      unfold removeFileE
      rw [hsrc]
    rw [hmv, hres, hrem]
  · right; right
    exact ⟨hall, by rw [hmv, hres]⟩

/-! ## Frame lemmas: `statFS` across `graftTree` and `eraseTree` -/
/-- Helper: `find?` congruence for pointwise equal predicates. -/
theorem find?_congr_pt {α : Type} (p q : α → Bool) :
    ∀ l : List α, (∀ a ∈ l, p a = q a) → l.find? p = l.find? q := by
  intro l
  induction l with
  | nil => intro h; rfl
  | cons a rest ih =>
    intro h
    have ha := h a (List.mem_cons_self a rest)
    cases hp : p a with
    | true =>
      rw [List.find?_cons_of_pos _ hp, List.find?_cons_of_pos _ (ha ▸ hp)]
    | false =>
      rw [List.find?_cons_of_neg _ (by simp [hp]),
        List.find?_cons_of_neg _ (by simp [← ha, hp]),
        ih (fun b hb => h b (List.mem_cons_of_mem a hb))]

/-- Helper: the graft relabelling keeps every entry's item. -/
theorem graft_snd (src dst : Path) (e : Path × FsItem) :
    (if src <+: e.1 then (dst ++ e.1.drop src.length, e.2) else e).2 = e.2 := by
  by_cases h : src <+: e.1 <;> simp [h]

/-- A path outside both subtrees is untouched by a graft. -/
theorem statFS_graft_preserve (fs : FS) (src dst q : Path)
    (hs : ¬ src <+: q) (hd : ¬ dst <+: q) :
    statFS (graftTree fs src dst) q = statFS fs q := by
  unfold statFS graftTree
  by_cases hq : q = []
  · simp [hq]
  · simp only [hq, if_false]
    rw [List.find?_map]
    rw [find?_congr_pt _ (fun e => decide (e.1 = q)) fs.entries ?hpt]
    · rw [Option.map_map]
      cases hfind : fs.entries.find? (fun e => decide (e.1 = q)) with
      | none => rfl
      | some e => simp [graft_snd]
    · intro e he
      by_cases hpre : src <+: e.1
      · have h1 : ¬ (dst ++ e.1.drop src.length = q) := by
          intro h
          exact hd (h ▸ List.prefix_append dst _)
        have h2 : ¬ (e.1 = q) := by
          intro h
          exact hs (h ▸ hpre)
        simp [Function.comp, hpre, h1, h2]
      · simp [Function.comp, hpre]

/-- A path outside the erased subtree is untouched by an erase. -/
theorem statFS_erase_preserve (fs : FS) (p q : Path) (h : ¬ p <+: q) :
    statFS (eraseTree fs p) q = statFS fs q := by
  unfold statFS eraseTree
  by_cases hq : q = []
  · simp [hq]
  · simp only [hq, if_false]
    rw [List.find?_filter]
    rw [find?_congr_pt _ (fun e => decide (e.1 = q)) fs.entries ?hpt]
    intro a ha
    by_cases haq : a.1 = q
    · simp [haq, h]
    · simp [haq]

/-- A path inside the erased subtree is gone after an erase. -/
theorem statFS_erase_under (fs : FS) (p q : Path) (hp : p <+: q)
    (hq : q ≠ []) : statFS (eraseTree fs p) q = none := by
  unfold statFS eraseTree
  simp only [hq, if_false]
  rw [List.find?_filter]
  have : fs.entries.find?
      (fun a => decide ((decide (¬ p <+: a.1)) = true ∧ (decide (a.1 = q)) = true)) =
      none := by
    rw [List.find?_eq_none]
    intro a ha
    by_cases haq : a.1 = q
    · simp [haq, hp]
    · simp [haq]
  rw [this]
  rfl

/-- A path strictly inside the source subtree (and outside the
destination subtree) is gone after a graft. -/
theorem statFS_graft_under_src (fs : FS) (src dst q : Path)
    (hs : src <+: q) (hd : ¬ dst <+: q) (hq : q ≠ []) :
    statFS (graftTree fs src dst) q = none := by
  unfold statFS graftTree
  simp only [hq, if_false]
  rw [List.find?_map]
  have : fs.entries.find?
      ((fun e => decide (e.1 = q)) ∘
        (fun e => if src <+: e.1 then (dst ++ e.1.drop src.length, e.2) else e)) =
      none := by
    rw [List.find?_eq_none]
    intro e he
    by_cases hpre : src <+: e.1
    · have h1 : ¬ (dst ++ e.1.drop src.length = q) := by
        intro h
        exact hd (h ▸ List.prefix_append dst _)
      simp [Function.comp, hpre, h1]
    · have h2 : ¬ (e.1 = q) := by
        intro h
        exact hpre (h ▸ hs)
      simp [Function.comp, hpre, h2]
  rw [this]
  rfl

/-- Grafting onto a free destination puts the source item at the
destination path. -/
theorem statFS_graft_at_dst (fs : FS) (src dst : Path)
    (hnode : statFS fs dst = none) (hdq : dst ≠ []) (hsq : src ≠ []) :
    statFS (graftTree fs src dst) dst = statFS fs src := by
  have hall : ∀ e ∈ fs.entries, ¬ (e.1 = dst) := by
    intro e he heq
    unfold statFS at hnode
    simp only [hdq, if_false] at hnode
    have : fs.entries.find? (fun e => decide (e.1 = dst)) = none := by
      cases hf : fs.entries.find? (fun e => decide (e.1 = dst)) with
      | none => rfl
      | some x => rw [hf] at hnode; cases hnode
    have := List.find?_eq_none.mp this e he
    simp [heq] at this
  unfold statFS graftTree
  simp only [hdq, hsq, if_false]
  rw [List.find?_map]
  rw [find?_congr_pt _ (fun e => decide (e.1 = src)) fs.entries ?hpt]
  · rw [Option.map_map]
    cases hfind : fs.entries.find? (fun e => decide (e.1 = src)) with
    | none => rfl
    | some e => simp [graft_snd]
  · intro e he
    by_cases hpre : src <+: e.1
    · by_cases heq : e.1 = src
      · simp [Function.comp, hpre, heq, List.drop_length]
      · have hlt : src.length < e.1.length := by
          rcases Nat.lt_or_ge src.length e.1.length with h | h
          · exact h
          · exact absurd (hpre.eq_of_length (le_antisymm hpre.length_le h)).symm
              heq
        have hne2 : ¬ (dst ++ e.1.drop src.length = dst) := by
          intro h
          have hlen := congrArg List.length h
          simp [List.length_drop] at hlen
          omega
        simp [Function.comp, hpre, hne2, heq]
    · have h2 : ¬ (e.1 = dst) := hall e he
      have h3 : ¬ (e.1 = src) := by
        intro h
        exact hpre (h ▸ List.prefix_refl _)
      simp [Function.comp, hpre, h2, h3]

/-- `isFileSameContent` in closed form: true exactly for two readable
files with the same bytes. -/
theorem sameContent_eval (fs : FS) (a b : Path) :
    isFileSameContent fs a b =
      (match statFS fs a, statFS fs b with
       | some (FsItem.file ca _ true), some (FsItem.file cb _ true) =>
         decide (ca = cb)
       | _, _ => false) := by
  unfold isFileSameContent isFileSameContentE isFileSameContentT statE
    calculateFileHash readFileE
  cases h1 : statFS fs a with
  | none => rfl
  | some ia =>
    cases h2 : statFS fs b with
    | none =>
      cases ia with
      | dir => rfl
      | file ca ta ra => cases ra <;> rfl
    | some ib =>
      cases ia with
      | dir =>
        cases ib with
        | dir => rfl
        | file cb tb rb =>
          by_cases hsz : (0 : Nat) = cb.length
          · simp [itemSize, ← hsz]
          · simp [itemSize, hsz]
      | file ca ta ra =>
        cases ib with
        | dir =>
          by_cases hsz : ca.length = (0 : Nat)
          · cases ra <;> simp [itemSize, hsz]
          · cases ra <;> simp [itemSize, hsz]
        | file cb tb rb =>
          by_cases hcc : ca = cb
          · subst hcc
            cases ra <;> cases rb <;> simp [itemSize]
          · by_cases hsz : ca.length = cb.length
            · cases ra <;> cases rb <;> simp [itemSize, hsz, hcc]
            · cases ra <;> cases rb <;> simp [itemSize, hsz, hcc]

/-- Content identity implies both sides are readable files with the
same bytes. -/
theorem sameContent_files (fs : FS) (a b : Path)
    (h : isFileSameContent fs a b = true) :
    ∃ cc ta tb, statFS fs a = some (FsItem.file cc ta true) ∧
      statFS fs b = some (FsItem.file cc tb true) := by
  rw [sameContent_eval] at h
  cases h1 : statFS fs a with
  | none => rw [h1] at h; simp at h
  | some ia =>
    cases h2 : statFS fs b with
    | none => rw [h1, h2] at h; cases ia <;> simp at h
    | some ib =>
      rw [h1, h2] at h
      cases ia with
      | dir => cases ib with
        | dir => simp at h
        | file cb tb rb => cases rb <;> simp at h
      | file ca ta ra =>
        cases ib with
        | dir => cases ra <;> simp at h
        | file cb tb rb =>
          cases ra with
          | false => cases rb <;> simp at h
          | true =>
            cases rb with
            | false => simp at h
            | true =>
              simp only [decide_eq_true_eq] at h
              exact ⟨ca, ta, tb, rfl, by rw [h]⟩

/-- Helper: `rename` of a file onto an existing file overwrites it:
erase the destination, then graft the source there. -/
theorem renameFS_overwrite_file (fs : FS) (src dst : Path)
    (ci : List Nat) (ti : Int) (ri : Bool) (cd : List Nat) (td : Int)
    (rd : Bool) (hsrc : statFS fs src = some (FsItem.file ci ti ri))
    (hdst : statFS fs dst = some (FsItem.file cd td rd))
    (hpar : statFS fs dst.dropLast = some FsItem.dir)
    (hne : src ≠ dst) (hnp : ¬ src <+: dst) :
    renameFS fs src dst = some (graftTree (eraseTree fs dst) src dst) := by
  unfold renameFS
  rw [hsrc, hdst]
  simp [hne, hpar, hnp]

/-- Helper: a successful `moveFileRename(src, dstPath)` with an occupied
destination keeps the destination path's item unchanged and preserves
the source file's bytes at some path in the state. -/
theorem moveFileRename_preserves (fs : FS) (src dstPath : Path)
    (c : List Nat) (t : Int) (r : Bool)
    (hsrc : statFS fs src = some (FsItem.file c t r))
    (hdir : statFS fs dstPath.dropLast = some FsItem.dir)
    (hnsd : ¬ src <+: dstPath.dropLast)
    (hnds : ¬ dstPath.dropLast <+: src)
    (hocc : existsFS fs dstPath = true) :
    ∀ fs2, moveFileRename fs src dstPath = Except.ok fs2 →
      statFS fs2 dstPath = statFS fs dstPath ∧
      ∃ q t2 r2, statFS fs2 q = some (FsItem.file c t2 r2) := by
  intro fs2 hok
  have hsq : src ≠ [] := by
    intro h
    rw [h] at hsrc
    simp [statFS] at hsrc
  have hdl : dstPath.dropLast ≠ [] := by
    intro h
    exact hnds (h ▸ (List.nil_prefix : [] <+: src))
  have hdq : dstPath ≠ [] := by
    intro h
    rw [h] at hdl
    exact hdl rfl
  have hnsp : ¬ src <+: dstPath := by
    intro hp
    rw [← List.dropLast_append_getLast hdq] at hp
    rcases prefix_concat_cases hp with h | h
    · exact hnsd h
    · rw [List.dropLast_append_getLast hdq] at h
      exact hnds (by rw [h]; exact List.dropLast_prefix dstPath)
  have hmv : moveFileRename fs src dstPath =
      moveFileRenameGo src dstPath.dropLast
        (getFileStem (lastComp (joinPath src)))
        (getFileExtension (lastComp (joinPath src))) 1 1001 fs := rfl
  rcases moveFileRenameGo_trichotomy fs src dstPath.dropLast
      (getFileStem (lastComp (joinPath src)))
      (getFileExtension (lastComp (joinPath src))) 1001 1 (le_refl _)
      (by omega) with
    ⟨k, hk1, hk2, hfree, hblock, hres⟩ |
    ⟨k, hk1, hk2, hocck, hsm, hblock, hres⟩ | ⟨hall, hres⟩
  · -- moved to the free candidate
    rw [hmv, hres] at hok
    have hfree2 : existsFS fs (renameCand src dstPath k) = false := hfree
    have hdstnone : statFS fs (renameCand src dstPath k) = none := by
      unfold existsFS at hfree2
      cases hx : statFS fs (renameCand src dstPath k) with
      | none => rfl
      | some it => rw [hx] at hfree2; simp at hfree2
    have hcq : renameCand src dstPath k ≠ [] := by
      unfold renameCand candAt
      simp
    have hpar2 : statFS fs (renameCand src dstPath k).dropLast =
        some FsItem.dir := by
      unfold renameCand candAt
      rwa [List.dropLast_concat]
    have hnp2 : ¬ src <+: renameCand src dstPath k := by
      intro hp
      unfold renameCand candAt at hp
      rcases prefix_concat_cases hp with h | h
      · exact hnsd h
      · exact hnds (by rw [h]; exact List.prefix_append _ _)
    have hrn : renameFS fs src (renameCand src dstPath k) =
        some (graftTree fs src (renameCand src dstPath k)) :=
      renameFS_to_free fs src (renameCand src dstPath k)
        (by rw [hsrc]; rfl) hdstnone hpar2 hnp2
    rw [show (renameFS fs src
        (candAt dstPath.dropLast (getFileStem (lastComp (joinPath src)))
          (getFileExtension (lastComp (joinPath src))) k)) =
        renameFS fs src (renameCand src dstPath k) from rfl, hrn] at hok
    cases hok
    have hcnd : ¬ renameCand src dstPath k <+: dstPath := by
      intro hp
      have hlen : (renameCand src dstPath k).length = dstPath.length := by
        unfold renameCand candAt
        rw [List.length_append]
        have := congrArg List.length (List.dropLast_append_getLast hdq)
        rw [List.length_append] at this
        simpa using this
      have heq := hp.eq_of_length hlen
      rw [heq] at hdstnone
      unfold existsFS at hocc
      rw [hdstnone] at hocc
      cases hocc
    constructor
    · exact statFS_graft_preserve fs src (renameCand src dstPath k) dstPath
        hnsp hcnd
    · refine ⟨renameCand src dstPath k, t, r, ?_⟩
      rw [statFS_graft_at_dst fs src (renameCand src dstPath k) hdstnone
        hcq hsq]
      exact hsrc
  · -- deleted as a true duplicate of the candidate's occupant
    rw [hmv, hres] at hok
    have hrem : removeFileE fs src = some (eraseTree fs src) := by
      unfold removeFileE
      rw [hsrc]
    rw [hrem] at hok
    cases hok
    have hsm2 : isFileSameContent fs src (renameCand src dstPath k) = true :=
      hsm
    obtain ⟨cc, ta, tb, hA, hB⟩ :=
      sameContent_files fs src (renameCand src dstPath k) hsm2
    rw [hsrc] at hA
    have hcc : cc = c := by
      cases hA
      rfl
    have hnp2 : ¬ src <+: renameCand src dstPath k := by
      intro hp
      unfold renameCand candAt at hp
      rcases prefix_concat_cases hp with h | h
      · exact hnsd h
      · exact hnds (by rw [h]; exact List.prefix_append _ _)
    constructor
    · exact statFS_erase_preserve fs src dstPath hnsp
    · refine ⟨renameCand src dstPath k, tb, true, ?_⟩
      rw [statFS_erase_preserve fs src (renameCand src dstPath k) hnp2, hB,
        hcc]
  · rw [hmv, hres] at hok
    cases hok

/-! ## C4: `CheckReplace` semantics -/
/-- C4: for a file classified `CheckReplace`: with no destination entry
the source is moved there exactly as `Replace` would; with a
content-identical destination file the destination is overwritten by
the source, the source path is emptied, and every other path is
untouched (so no numbered duplicate appears and exactly one file of
that name remains); with a different destination file the call is
exactly the collision-avoiding rename, which on success keeps the
original destination item and preserves the incoming bytes at some
path. -/
theorem moveFile_checkReplace_spec (fs : FS) (src dst : Path)
    (opts : ReplaceOptions) (c : List Nat) (t : Int) (r : Bool)
    (hact : getActionForPath opts (joinPath src) = ReplaceAction.CheckReplace)
    (hsrc : statFS fs src = some (FsItem.file c t r))
    (hpar : statFS fs dst.dropLast = some FsItem.dir)
    (hnsd : ¬ src <+: dst.dropLast)
    (hnds : ¬ dst.dropLast <+: src) :
    (statFS fs dst = none →
      moveFile fs src dst opts = Except.ok (graftTree fs src dst) ∧
      (∀ opts2, getActionForPath opts2 (joinPath src) = ReplaceAction.Replace →
        moveFile fs src dst opts2 = Except.ok (graftTree fs src dst)))
  ∧ (isFileSameContent fs src dst = true →
      moveFile fs src dst opts =
        Except.ok (graftTree (eraseTree fs dst) src dst) ∧
      statFS (graftTree (eraseTree fs dst) src dst) dst =
        some (FsItem.file c t r) ∧
      statFS (graftTree (eraseTree fs dst) src dst) src = none ∧
      (∀ q, ¬ src <+: q → ¬ dst <+: q →
        statFS (graftTree (eraseTree fs dst) src dst) q = statFS fs q))
  ∧ (existsFS fs dst = true → isFileSameContent fs src dst = false →
      moveFile fs src dst opts = moveFileRename fs src dst ∧
      (∀ fs2, moveFileRename fs src dst = Except.ok fs2 →
        statFS fs2 dst = statFS fs dst ∧
        ∃ q t2 r2, statFS fs2 q = some (FsItem.file c t2 r2))) := by
  have hsq : src ≠ [] := by
    intro h
    rw [h] at hsrc
    simp [statFS] at hsrc
  have hdl : dst.dropLast ≠ [] := by
    intro h
    exact hnds (h ▸ (List.nil_prefix : [] <+: src))
  have hdq : dst ≠ [] := by
    intro h
    rw [h] at hdl
    exact hdl rfl
  have hnsp : ¬ src <+: dst := by
    intro hp
    rw [← List.dropLast_append_getLast hdq] at hp
    rcases prefix_concat_cases hp with h | h
    · exact hnsd h
    · rw [List.dropLast_append_getLast hdq] at h
      exact hnds (by rw [h]; exact List.dropLast_prefix dst)
  have hndsrc : ¬ dst <+: src := by
    intro hp
    exact hnds ((List.dropLast_prefix dst).trans hp)
  refine ⟨fun hdst => ?_, fun hsame => ?_, fun hocc hsame => ?_⟩
  · -- no destination entry: exactly a rename, like Replace
    have hex : existsFS fs dst = false := by
      unfold existsFS
      rw [hdst]
      rfl
    have hrn : renameFS fs src dst = some (graftTree fs src dst) :=
      renameFS_to_free fs src dst (by rw [hsrc]; rfl) hdst hpar hnsp
    constructor
    · unfold moveFile
      rw [hact]
      simp [hex, hrn]
    · intro opts2 hact2
      unfold moveFile
      rw [hact2]
      simp [hrn]
  · -- content-identical destination: overwrite
    obtain ⟨cc, ta, tb, hA, hB⟩ := sameContent_files fs src dst hsame
    rw [hsrc] at hA
    have hcc : cc = c := by
      cases hA
      rfl
    rw [hcc] at hB
    have hne : src ≠ dst := by
      intro h
      exact hnds (by rw [h]; exact List.dropLast_prefix dst)
    have hocc : existsFS fs dst = true := by
      unfold existsFS
      rw [hB]
      rfl
    have hrn : renameFS fs src dst =
        some (graftTree (eraseTree fs dst) src dst) :=
      renameFS_overwrite_file fs src dst c t r c tb true hsrc hB hpar hne hnsp
    refine ⟨?_, ?_, ?_, ?_⟩
    · unfold moveFile
      rw [hact]
      simp [hocc, hsame, hrn]
    · rw [statFS_graft_at_dst (eraseTree fs dst) src dst
        (statFS_erase_under fs dst dst (List.prefix_refl dst) hdq) hdq hsq,
        statFS_erase_preserve fs dst src hndsrc]
      exact hsrc
    · exact statFS_graft_under_src (eraseTree fs dst) src dst src
        (List.prefix_refl src) hndsrc hsq
    · intro q hq1 hq2
      rw [statFS_graft_preserve (eraseTree fs dst) src dst q hq1 hq2,
        statFS_erase_preserve fs dst q hq2]
  · -- different destination: exactly the collision-avoiding rename
    constructor
    · unfold moveFile
      rw [hact]
      simp [hocc, hsame]
    · exact moveFileRename_preserves fs src dst c t r hsrc hpar hnsd hnds hocc

/-- Witness for C4: all three branches discharged at concrete states. -/
theorem moveFile_checkReplace_spec_witness :
    (moveFile w4fs ["u", "p.bms"] ["v", "p.bms"] w4opts =
      Except.ok (graftTree w4fs ["u", "p.bms"] ["v", "p.bms"]))
  ∧ (moveFile w4fs ["u", "n.bms"] ["v", "n.bms"] w4opts =
      Except.ok (graftTree (eraseTree w4fs ["v", "n.bms"]) ["u", "n.bms"]
        ["v", "n.bms"]) ∧
     statFS (graftTree (eraseTree w4fs ["v", "n.bms"]) ["u", "n.bms"]
        ["v", "n.bms"]) ["v", "n.bms"] = some (FsItem.file [1] 0 true) ∧
     statFS (graftTree (eraseTree w4fs ["v", "n.bms"]) ["u", "n.bms"]
        ["v", "n.bms"]) ["u", "n.bms"] = none)
  ∧ (moveFile w4fs ["u", "m.bms"] ["v", "m.bms"] w4opts =
      moveFileRename w4fs ["u", "m.bms"] ["v", "m.bms"]) :=
  ⟨((moveFile_checkReplace_spec w4fs ["u", "p.bms"] ["v", "p.bms"] w4opts
      [3] 0 true (by decide) (by decide) (by decide) (by decide)
      (by decide)).1 (by decide)).1,
   (fun h => ⟨h.1, h.2.1, h.2.2.1⟩)
     ((moveFile_checkReplace_spec w4fs ["u", "n.bms"] ["v", "n.bms"] w4opts
      [1] 0 true (by decide) (by decide) (by decide) (by decide)
      (by decide)).2.1 (by decide)),
   ((moveFile_checkReplace_spec w4fs ["u", "m.bms"] ["v", "m.bms"] w4opts
      [2] 0 true (by decide) (by decide) (by decide) (by decide)
      (by decide)).2.2 (by decide) (by decide)).1⟩

/-- Witness for C2 at a concrete state. -/
theorem moveFileRename_trichotomy_witness :
    (∃ k, 1 ≤ k ∧ k ≤ 1001 ∧
        existsFS w2fs (renameCand ["s", "a.txt"] ["d", "a.txt"] k) = false ∧
        (∀ j, 1 ≤ j → j < k →
          renameBlocked w2fs ["s", "a.txt"] ["d", "a.txt"] j) ∧
        moveFileRename w2fs ["s", "a.txt"] ["d", "a.txt"] =
          Except.ok (graftTree w2fs ["s", "a.txt"]
            (renameCand ["s", "a.txt"] ["d", "a.txt"] k)))
  ∨ (∃ k, 1 ≤ k ∧ k ≤ 1001 ∧
        existsFS w2fs (renameCand ["s", "a.txt"] ["d", "a.txt"] k) = true ∧
        isFileSameContent w2fs ["s", "a.txt"]
          (renameCand ["s", "a.txt"] ["d", "a.txt"] k) = true ∧
        (∀ j, 1 ≤ j → j < k →
          renameBlocked w2fs ["s", "a.txt"] ["d", "a.txt"] j) ∧
        moveFileRename w2fs ["s", "a.txt"] ["d", "a.txt"] =
          Except.ok (eraseTree w2fs ["s", "a.txt"]))
  ∨ ((∀ j, 1 ≤ j → j ≤ 1001 →
        renameBlocked w2fs ["s", "a.txt"] ["d", "a.txt"] j) ∧
        moveFileRename w2fs ["s", "a.txt"] ["d", "a.txt"] =
          Except.error MErr.tooManyDup) :=
  moveFileRename_trichotomy w2fs ["s", "a.txt"] ["d", "a.txt"] [1] 0 true
    (by decide) (by decide) (by decide)

/-! ## C6: the per-file sync decision -/
/-- Helper: closed form of the instrumented identity comparison for a
source and destination file — the verdict is the conjunction of the
enabled checks (size, then mtime, then content hash), and the hash runs
exactly when it is enabled and every earlier enabled check passed. -/
theorem decideSameT_spec (fs : FS) (cmp : FileCompareStrategy)
    (srcPath dstPath : Path) (c : List Nat) (t : Int) (r : Bool)
    (cd : List Nat) (td : Int) (rd : Bool)
    (hsrc : statFS fs srcPath = some (FsItem.file c t r))
    (hdst : statFS fs dstPath = some (FsItem.file cd td rd)) :
    (decideSameT fs cmp srcPath dstPath).1 =
      ((!cmp.checkSize || decide (c.length = cd.length)) &&
       ((!cmp.checkMtime || decide (t = td)) &&
        (!cmp.checkSha512 || isFileSameContent fs srcPath dstPath)))
  ∧ ((decideSameT fs cmp srcPath dstPath).2 =
      (cmp.checkSha512 &&
       ((!cmp.checkSize || decide (c.length = cd.length)) &&
        (!cmp.checkMtime || decide (t = td))))) := by
  obtain ⟨cs, cm, ch⟩ := cmp
  unfold decideSameT
  rw [hsrc, hdst]
  simp only [Option.getD_some, itemSize, itemMtime]
  cases cs <;> cases cm <;> cases ch <;>
    cases hb1 : decide (c.length = cd.length) <;>
    cases hb2 : decide (t = td) <;>
    cases hb3 : isFileSameContent fs srcPath dstPath <;>
    simp_all

/-- C6: for a file that passes the sync filter (extension filter and
bound-pair suppression), identity with a destination file is the
conjunction of the enabled `fileCompare` checks in the order size,
mtime, content hash, the hash being evaluated only when it is enabled
and the earlier enabled checks passed; and exactly one transition
happens: destination absent → exactly `preset.exec` (`None` does
nothing); present and same → no transfer, with the source deleted
exactly when `cleanup.removeSrcSame`; present and different → exactly
`preset.exec`, overwriting. -/
theorem syncFile_decision_spec (fs : FS) (preset : SoftSyncPreset)
    (srcPath dstPath : Path) (name : String) (c : List Nat) (t : Int)
    (r : Bool)
    (hfilter : extFilterOk preset (getFileExtension name) = true)
    (hbound : boundCheck fs preset dstPath (getFileExtension name) = false)
    (hsrc : statFS fs srcPath = some (FsItem.file c t r)) :
    (∀ cd td rd, statFS fs dstPath = some (FsItem.file cd td rd) →
      (decideSameT fs preset.fileCompare srcPath dstPath).1 =
        ((!preset.fileCompare.checkSize || decide (c.length = cd.length)) &&
         ((!preset.fileCompare.checkMtime || decide (t = td)) &&
          (!preset.fileCompare.checkSha512 ||
            isFileSameContent fs srcPath dstPath))) ∧
      (decideSameT fs preset.fileCompare srcPath dstPath).2 =
        (preset.fileCompare.checkSha512 &&
         ((!preset.fileCompare.checkSize || decide (c.length = cd.length)) &&
          (!preset.fileCompare.checkMtime || decide (t = td)))))
  ∧ (existsFS fs dstPath = false →
      syncFileStep preset fs srcPath dstPath name =
        syncExec fs preset srcPath dstPath)
  ∧ (existsFS fs dstPath = true →
      (decideSameT fs preset.fileCompare srcPath dstPath).1 = true →
      syncFileStep preset fs srcPath dstPath name =
        (if preset.cleanup.removeSrcSame then Except.ok (eraseTree fs srcPath)
         else Except.ok fs))
  ∧ (existsFS fs dstPath = true →
      (decideSameT fs preset.fileCompare srcPath dstPath).1 = false →
      syncFileStep preset fs srcPath dstPath name =
        syncExec fs preset srcPath dstPath) := by
  refine ⟨fun cd td rd hdst =>
    decideSameT_spec fs preset.fileCompare srcPath dstPath c t r cd td rd
      hsrc hdst, fun ha => ?_, fun hp hsame => ?_, fun hp hdiff => ?_⟩
  · cases hx : syncExec fs preset srcPath dstPath with
    | ok fs1 =>
      unfold syncFileStep
      simp [hfilter, hbound, ha, hx]
    | error e =>
      unfold syncFileStep
      simp [hfilter, hbound, ha, hx]
  · have hrem : removeFileE fs srcPath = some (eraseTree fs srcPath) := by
      unfold removeFileE
      rw [hsrc]
    unfold syncFileStep
    cases hflag : preset.cleanup.removeSrcSame <;>
      simp [hfilter, hbound, hp, hsame, hflag, hrem]
  · cases hx : syncExec fs preset srcPath dstPath with
    | ok fs1 =>
      unfold syncFileStep
      simp [hfilter, hbound, hp, hdiff, hx]
    | error e =>
      unfold syncFileStep
      simp [hfilter, hbound, hp, hdiff, hx]

/-- Witness for C6 at a concrete state. -/
theorem syncFile_decision_spec_witness :
    ((decideSameT w6fs presetForAppend.fileCompare ["s", "x.txt"]
        ["d", "x.txt"]).1 =
      ((!presetForAppend.fileCompare.checkSize ||
          decide (([1] : List Nat).length = ([1] : List Nat).length)) &&
       ((!presetForAppend.fileCompare.checkMtime ||
           decide ((0 : Int) = (5 : Int))) &&
        (!presetForAppend.fileCompare.checkSha512 ||
          isFileSameContent w6fs ["s", "x.txt"] ["d", "x.txt"]))))
  ∧ (syncFileStep presetForAppend w6fs ["s", "z.txt"] ["d", "z.txt"]
      "z.txt" = syncExec w6fs presetForAppend ["s", "z.txt"] ["d", "z.txt"])
  ∧ (syncFileStep presetForAppend w6fs ["s", "x.txt"] ["d", "x.txt"]
      "x.txt" =
      (if presetForAppend.cleanup.removeSrcSame then
        Except.ok (eraseTree w6fs ["s", "x.txt"])
       else Except.ok w6fs))
  ∧ (syncFileStep presetForAppend w6fs ["s", "y.txt"] ["d", "y.txt"]
      "y.txt" = syncExec w6fs presetForAppend ["s", "y.txt"] ["d", "y.txt"]) :=
  ⟨((syncFile_decision_spec w6fs presetForAppend ["s", "x.txt"]
      ["d", "x.txt"] "x.txt" [1] 0 true (by decide) (by decide)
      (by decide)).1 [1] 5 true (by decide)).1,
   (syncFile_decision_spec w6fs presetForAppend ["s", "z.txt"]
      ["d", "z.txt"] "z.txt" [3] 0 true (by decide) (by decide)
      (by decide)).2.1 (by decide),
   (syncFile_decision_spec w6fs presetForAppend ["s", "x.txt"]
      ["d", "x.txt"] "x.txt" [1] 0 true (by decide) (by decide)
      (by decide)).2.2.1 (by decide) (by decide),
   (syncFile_decision_spec w6fs presetForAppend ["s", "y.txt"]
      ["d", "y.txt"] "y.txt" [2] 0 true (by decide) (by decide)
      (by decide)).2.2.2 (by decide) (by decide)⟩

/-- Helper: with distinct keys, two entries with the same key coincide. -/
theorem nodup_keys_eq {l : List (Path × FsItem)}
    (h : (l.map Prod.fst).Nodup) {a b : Path × FsItem} (ha : a ∈ l)
    (hb : b ∈ l) (hab : a.1 = b.1) : a = b := by
  induction l with
  | nil => cases ha
  | cons e rest ih =>
    rw [List.map_cons, List.nodup_cons] at h
    rcases List.mem_cons.mp ha with ha1 | ha1 <;>
      rcases List.mem_cons.mp hb with hb1 | hb1
    · rw [ha1, hb1]
    · exfalso
      apply h.1
      rw [← ha1, hab]
      exact List.mem_map_of_mem Prod.fst hb1
    · exfalso
      apply h.1
      rw [← hb1, ← hab]
      exact List.mem_map_of_mem Prod.fst ha1
    · exact ih h.2 ha1 hb1

/-- Helper: a `stat` hit is an entry. -/
theorem statFS_mem (fs : FS) (q : Path) (it : FsItem) (hq : q ≠ [])
    (h : statFS fs q = some it) : (q, it) ∈ fs.entries := by
  unfold statFS at h
  simp only [hq, if_false] at h
  rcases Option.map_eq_some'.mp h with ⟨e, hfind, he2⟩
  have h1 := List.find?_some hfind
  have h2 := List.mem_of_find?_eq_some hfind
  simp only [decide_eq_true_eq] at h1
  have : e = (q, it) := by
    cases e
    cases h1
    cases he2
    rfl
  rwa [this] at h2

/-- Helper: with distinct keys, an entry is a `stat` hit. -/
theorem mem_statFS (fs : FS) (hnd : (fs.entries.map Prod.fst).Nodup)
    (q : Path) (it : FsItem) (hq : q ≠ [])
    (h : (q, it) ∈ fs.entries) : statFS fs q = some it := by
  unfold statFS
  simp only [hq, if_false]
  cases hf : fs.entries.find? (fun e => decide (e.1 = q)) with
  | none =>
    exfalso
    have := List.find?_eq_none.mp hf (q, it) h
    simp at this
  | some e =>
    have h1 := List.find?_some hf
    have h2 := List.mem_of_find?_eq_some hf
    simp only [decide_eq_true_eq] at h1
    have := nodup_keys_eq hnd h2 h h1
    rw [this]
    rfl

/-- Helper: the listing condition pins an entry's key down to
`d ++ [its last name]`. -/
theorem cond_key {d : Path} {e : Path × FsItem}
    (hcond : e.1.length = d.length + 1 ∧ d <+: e.1) :
    ∃ m, e.1 = d ++ [m] ∧ e.1.getLast? = some m := by
  have hne : e.1 ≠ [] := by
    intro h
    rw [h] at hcond
    simp at hcond
  have hdl : e.1.dropLast = d := by
    have htake := List.prefix_iff_eq_take.mp hcond.2
    rw [List.dropLast_eq_take, hcond.1]
    simp only [Nat.add_sub_cancel]
    exact htake.symm
  refine ⟨e.1.getLast hne, ?_, List.getLast?_eq_getLast e.1 hne⟩
  conv_lhs => rw [← List.dropLast_append_getLast hne]
  rw [hdl]

/-- Helper: a listing entry `(n, b)` of a well-formed directory `d`
comes from the entry at `d ++ [n]`. -/
theorem readDir_entry (fs : FS) (hnd : (fs.entries.map Prod.fst).Nodup)
    (d : Path) (L : List (String × Bool)) (hL : readDirFS fs d = some L)
    (n : String) (b : Bool) (hmem : (n, b) ∈ L) :
    ∃ it, statFS fs (d ++ [n]) = some it ∧ b = decide (it = FsItem.dir) := by
  unfold readDirFS at hL
  by_cases hdir : statFS fs d = some FsItem.dir
  · rw [if_pos hdir] at hL
    cases hL
    rcases List.mem_filterMap.mp hmem with ⟨e, hmem2, hval⟩
    by_cases hcond : e.1.length = d.length + 1 ∧ d <+: e.1
    · rw [if_pos hcond] at hval
      rcases cond_key hcond with ⟨m, hkey, hlast⟩
      rw [hlast] at hval
      simp only [Option.map_some'] at hval
      cases hval
      refine ⟨e.2, ?_, rfl⟩
      rw [← hkey]
      exact mem_statFS fs hnd e.1 e.2 (by rw [hkey]; simp)
        (by cases e; exact hmem2)
    · rw [if_neg hcond] at hval
      cases hval
  · rw [if_neg hdir] at hL
    cases hL

/-- Helper: the entry at `d ++ [n]` appears in the listing of `d`. -/
theorem entry_readDir (fs : FS) (d : Path) (L : List (String × Bool))
    (hL : readDirFS fs d = some L) (n : String) (it : FsItem)
    (h : statFS fs (d ++ [n]) = some it) :
    (n, decide (it = FsItem.dir)) ∈ L := by
  unfold readDirFS at hL
  by_cases hdir : statFS fs d = some FsItem.dir
  · rw [if_pos hdir] at hL
    cases hL
    have hmem : (d ++ [n], it) ∈ fs.entries :=
      statFS_mem fs (d ++ [n]) it (by simp) h
    apply List.mem_filterMap.mpr
    refine ⟨(d ++ [n], it), hmem, ?_⟩
    rw [if_pos (by simp)]
    rw [List.getLast?_concat]
    rfl
  · rw [if_neg hdir] at hL
    cases hL

/-- Helper: a produced listing name `m` comes from an entry keyed
`d ++ [m]`. -/
theorem listing_name_key (d : Path) (l : List (Path × FsItem)) (m : String)
    (hm : m ∈ (l.filterMap (fun e =>
      if e.1.length = d.length + 1 ∧ d <+: e.1 then
        (e.1.getLast?).map (fun n => (n, decide (e.2 = FsItem.dir)))
      else none)).map Prod.fst) :
    ∃ e ∈ l, e.1 = d ++ [m] := by
  rcases List.mem_map.mp hm with ⟨nb, hnb, hfst⟩
  rcases List.mem_filterMap.mp hnb with ⟨e, hmem, hval⟩
  by_cases hcond : e.1.length = d.length + 1 ∧ d <+: e.1
  · rw [if_pos hcond] at hval
    rcases cond_key hcond with ⟨m2, hkey, hlast⟩
    rw [hlast] at hval
    simp only [Option.map_some'] at hval
    have hval2 := Option.some.inj hval
    subst hval2
    simp only at hfst
    refine ⟨e, hmem, ?_⟩
    rw [hkey, hfst]
  · rw [if_neg hcond] at hval
    cases hval

/-- Helper: the names produced by the listing filter are distinct when
the keys are. -/
theorem listing_nodup (d : Path) :
    ∀ l : List (Path × FsItem), (l.map Prod.fst).Nodup →
      ((l.filterMap (fun e =>
        if e.1.length = d.length + 1 ∧ d <+: e.1 then
          (e.1.getLast?).map (fun n => (n, decide (e.2 = FsItem.dir)))
        else none)).map Prod.fst).Nodup := by
  intro l
  induction l with
  | nil => intro h; exact List.nodup_nil
  | cons e rest ih =>
    intro h
    rw [List.map_cons, List.nodup_cons] at h
    rw [List.filterMap_cons]
    by_cases hcond : e.1.length = d.length + 1 ∧ d <+: e.1
    · rw [if_pos hcond]
      rcases cond_key hcond with ⟨m, hkey, hlast⟩
      rw [hlast]
      simp only [Option.map_some']
      rw [List.map_cons, List.nodup_cons]
      refine ⟨?_, ih h.2⟩
      intro hmm
      rcases listing_name_key d rest m hmm with ⟨e2, hmem2, hkey2⟩
      apply h.1
      rw [hkey, ← hkey2]
      exact List.mem_map_of_mem Prod.fst hmem2
    · rw [if_neg hcond]
      exact ih h.2

/-- Helper: a directory's listing has distinct names when the state is
well-formed. -/
theorem readDir_nodup (fs : FS) (hwf : WF fs) (d : Path)
    (L : List (String × Bool)) (hL : readDirFS fs d = some L) :
    (L.map Prod.fst).Nodup := by
  unfold readDirFS at hL
  by_cases hdir : statFS fs d = some FsItem.dir
  · rw [if_pos hdir] at hL
    cases hL
    exact listing_nodup d fs.entries hwf.1
  · rw [if_neg hdir] at hL
    cases hL

/-- Erasing a subtree keeps the state well-formed. -/
theorem WF_erase (fs : FS) (hwf : WF fs) (p : Path) :
    WF (eraseTree fs p) := by
  obtain ⟨h1, h2, h3⟩ := hwf
  refine ⟨?_, ?_, ?_⟩
  · exact List.Nodup.sublist ((List.filter_sublist fs.entries).map Prod.fst)
      h1
  · intro e he
    exact h2 e (List.mem_of_mem_filter he)
  · intro e he n hn1 hn2
    have hee := List.mem_of_mem_filter he
    have hpred := List.of_mem_filter he
    simp only [decide_eq_true_eq] at hpred
    rw [statFS_erase_preserve]
    · exact h3 e hee n hn1 hn2
    · intro hcon
      exact hpred (hcon.trans (List.take_prefix n e.1))

/-- `stat` on a state with one entry added in front. -/
theorem statFS_cons (fs : FS) (p : Path) (it : FsItem) (q : Path)
    (hq : q ≠ []) :
    statFS ⟨(p, it) :: fs.entries⟩ q =
      (if q = p then some it else statFS fs q) := by
  unfold statFS
  simp only [hq, if_false]
  by_cases hqp : q = p
  · rw [if_pos hqp]
    rw [List.find?_cons_of_pos _ (by simp [hqp])]
    rfl
  · rw [if_neg hqp]
    rw [List.find?_cons_of_neg _ (by simp; intro h; exact hqp h.symm)]

/-- Adding a fresh directory entry whose proper prefixes are directories
keeps the state well-formed. -/
theorem WF_cons_dir (fs : FS) (hwf : WF fs) (p : Path) (hp : p ≠ [])
    (hmiss : statFS fs p = none)
    (hpre : ∀ n, 0 < n → n < p.length →
      statFS fs (p.take n) = some FsItem.dir) :
    WF ⟨(p, FsItem.dir) :: fs.entries⟩ := by
  obtain ⟨h1, h2, h3⟩ := hwf
  have hnotin : p ∉ fs.entries.map Prod.fst := by
    intro hmem
    rcases List.mem_map.mp hmem with ⟨e, he, hfst⟩
    have := mem_statFS fs h1 p e.2 hp
      (by cases e; cases hfst; exact he)
    rw [hmiss] at this
    cases this
  refine ⟨?_, ?_, ?_⟩
  · rw [List.map_cons, List.nodup_cons]
    exact ⟨hnotin, h1⟩
  · intro e he
    rcases List.mem_cons.mp he with h | h
    · rw [h]
      exact hp
    · exact h2 e h
  · intro e he n hn1 hn2
    have htn : e.1.take n ≠ [] := by
      intro hcon
      rcases List.take_eq_nil_iff.mp hcon with h | h
      · omega
      · rcases List.mem_cons.mp he with hh | hh
        · rw [hh] at h
          exact hp h
        · exact h2 e hh h
    rw [statFS_cons fs p FsItem.dir (e.1.take n) htn]
    by_cases hep : e.1.take n = p
    · rw [if_pos hep]
    · rw [if_neg hep]
      rcases List.mem_cons.mp he with hh | hh
      · rw [hh] at hn2 ⊢
        simp only at hn2 ⊢
        exact hpre n hn1 hn2
      · exact h3 e hh n hn1 hn2

/-- With every proper prefix present, `mkdir` adds exactly one
directory entry in front. -/
theorem mkdirFS_one (fs : FS) (p : Path) (hp : p ≠ [])
    (hpre : ∀ n, 0 < n → n < p.length → existsFS fs (p.take n) = true)
    (hmiss : existsFS fs p = false) :
    mkdirFS fs p = ⟨(p, FsItem.dir) :: fs.entries⟩ := by
  unfold mkdirFS
  congr 1
  have hl : 0 < p.length := List.length_pos.mpr hp
  have hlen : p.length = (p.length - 1) + 1 := by omega
  rw [hlen, List.range_succ, List.filterMap_append]
  have h1 : (List.range (p.length - 1)).filterMap (fun n =>
      if existsFS fs (p.take (n + 1)) then none
      else some (p.take (n + 1), FsItem.dir)) = [] := by
    rw [List.filterMap_eq_nil_iff]
    intro n hn
    have hn2 := List.mem_range.mp hn
    rw [if_pos]
    exact (hpre (n + 1) (by omega) (by omega))
  have h2 : ([p.length - 1].filterMap (fun n =>
      if existsFS fs (p.take (n + 1)) then none
      else some (p.take (n + 1), FsItem.dir))) = [(p, FsItem.dir)] := by
    have htk : p.take ((p.length - 1) + 1) = p := by
      rw [← hlen]
      exact List.take_length p
    simp only [List.filterMap_cons, List.filterMap_nil, htk]
    rw [if_neg (by rw [hmiss]; exact Bool.false_ne_true)]
  rw [h1, h2]
  rfl

/-- The append/drain per-file step in closed form: drop the source when
it is content-identical to its counterpart, otherwise do nothing. -/
theorem appendStep_eval (fs : FS) (srcPath dstPath : Path) (name : String)
    (c : List Nat) (t : Int) (r : Bool)
    (hsrc : statFS fs srcPath = some (FsItem.file c t r)) :
    syncFileStep presetForAppend fs srcPath dstPath name =
      (if isFileSameContent fs srcPath dstPath = true then
        Except.ok (eraseTree fs srcPath)
       else Except.ok fs) := by
  have hrem : removeFileE fs srcPath = some (eraseTree fs srcPath) := by
    unfold removeFileE
    rw [hsrc]
  cases hdst : statFS fs dstPath with
  | none =>
    have hex : existsFS fs dstPath = false := by
      unfold existsFS
      rw [hdst]
      rfl
    have hsame : isFileSameContent fs srcPath dstPath = false := by
      rw [sameContent_eval, hsrc, hdst]
      cases r <;> rfl
    unfold syncFileStep
    simp [extFilterOk, boundCheck, presetForAppend, hex, hsame, syncExec]
  | some it =>
    have hex : existsFS fs dstPath = true := by
      unfold existsFS
      rw [hdst]
      rfl
    have hsameT : (decideSameT fs presetForAppend.fileCompare srcPath
        dstPath).1 = isFileSameContent fs srcPath dstPath := by
      cases it with
      | dir =>
        have hfsc : isFileSameContent fs srcPath dstPath = false := by
          rw [sameContent_eval, hsrc, hdst]
          cases r <;> rfl
        unfold decideSameT
        rw [hsrc, hdst, hfsc]
        simp only [Option.getD_some, itemSize, itemMtime]
        by_cases hsz : c.length = 0
        · simp [presetForAppend, hsz, hfsc]
        · simp [presetForAppend, hsz, hfsc]
      | file cd td rd =>
        by_cases hfsc : isFileSameContent fs srcPath dstPath = true
        · rcases sameContent_files fs srcPath dstPath hfsc with
            ⟨cc, ta, tb, hA, hB⟩
          rw [hsrc] at hA
          rw [hdst] at hB
          cases hA
          cases hB
          unfold decideSameT
          rw [hsrc, hdst, hfsc]
          simp [presetForAppend, itemSize, itemMtime]
        · have hfsc2 : isFileSameContent fs srcPath dstPath = false :=
            Bool.not_eq_true _ ▸ Bool.eq_false_iff.mpr hfsc
          unfold decideSameT
          rw [hsrc, hdst, hfsc2]
          simp only [Option.getD_some, itemSize, itemMtime]
          by_cases hsz : c.length = cd.length
          · simp [presetForAppend, hsz, hfsc2]
          · simp [presetForAppend, hsz, hfsc2]
    by_cases hfsc : isFileSameContent fs srcPath dstPath = true
    · rw [hfsc] at hsameT
      have hsT : (decideSameT fs
          { checkSize := true, checkMtime := false, checkSha512 := true }
          srcPath dstPath).1 = true := hsameT
      unfold syncFileStep
      simp [extFilterOk, boundCheck, presetForAppend, hex, hsT, hrem,
        syncExec, hfsc]
    · have hfsc2 : isFileSameContent fs srcPath dstPath = false :=
        Bool.not_eq_true _ ▸ Bool.eq_false_iff.mpr hfsc
      rw [hfsc2] at hsameT
      have hsT : (decideSameT fs
          { checkSize := true, checkMtime := false, checkSha512 := true }
          srcPath dstPath).1 = false := hsameT
      unfold syncFileStep
      simp [extFilterOk, boundCheck, presetForAppend, hex, hsT, hfsc2,
        syncExec]

/-- Helper: children of disjoint directories are disjoint. -/
theorem child_disjoint {src dst : Path} (hsd : ¬ src <+: dst)
    (hds : ¬ dst <+: src) (a b : String) :
    ¬ (src ++ [a]) <+: dst ++ [b] := by
  intro h
  have h1 : src <+: dst ++ [b] := (List.prefix_append src [a]).trans h
  rcases prefix_concat_cases h1 with h2 | h2
  · exact hsd h2
  · exact hds (by rw [h2]; exact List.prefix_append dst [b])

/-- Helper: below a child `s ++ [a]`, dropping `s` exposes the child
name first. -/
theorem drop_child {s p : Path} {a : String} (h : (s ++ [a]) <+: p) :
    p.drop s.length = a :: p.drop (s.length + 1) := by
  obtain ⟨t, ht⟩ := h
  rw [← ht, List.append_assoc]
  rw [List.drop_left]
  have : s.length + 1 = (s ++ [a]).length := by simp
  rw [this, ← List.append_assoc, List.drop_left]
  rfl

/-- Helper: the child counterpart path agrees with the parent one. -/
theorem counterpart_child {s d p : Path} {a : String}
    (h : (s ++ [a]) <+: p) :
    (d ++ [a]) ++ p.drop (s.length + 1) = d ++ p.drop s.length := by
  rw [drop_child h]
  simp

/-- A run of the append/drain sync over an already-drained state (every
source file differs from its counterpart, every source directory has a
directory counterpart) changes nothing. -/
theorem syncFolderGo_noop :
    ∀ fuel src dst fs, WF fs →
      statFS fs src = some FsItem.dir → statFS fs dst = some FsItem.dir →
      ¬ src <+: dst → ¬ dst <+: src →
      (∀ p, src <+: p → statFS fs p = some FsItem.dir →
        statFS fs (dst ++ p.drop src.length) = some FsItem.dir) →
      (∀ p c t r, src <+: p → statFS fs p = some (FsItem.file c t r) →
        isFileSameContent fs p (dst ++ p.drop src.length) = false) →
      (∀ q, src <+: q → statFS fs q = some FsItem.dir →
        q.length < src.length + fuel) →
      syncFolderGo presetForAppend fuel src dst fs = Except.ok fs := by
  intro fuel
  induction fuel with
  | zero =>
    intro src dst fs hwf hsrc hdst hsd hds hdirs hdrained hfuel
    exact absurd (hfuel src (List.prefix_refl src) hsrc) (by omega)
  | succ f ih =>
    intro src dst fs hwf hsrc hdst hsd hds hdirs hdrained hfuel
    rcases hLs : readDirFS fs src with _ | Ls
    · exfalso
      unfold readDirFS at hLs
      rw [if_pos hsrc] at hLs
      cases hLs
    rcases hMd : readDirFS fs dst with _ | Md
    · exfalso
      unfold readDirFS at hMd
      rw [if_pos hdst] at hMd
      cases hMd
    have hlist : ∀ L2 : List (String × Bool),
        (∀ e ∈ L2, ∃ it, statFS fs (src ++ [e.1]) = some it ∧
          e.2 = decide (it = FsItem.dir)) →
        syncList presetForAppend (syncFolderGo presetForAppend f) src dst
          L2 fs = Except.ok fs := by
      intro L2
      induction L2 with
      | nil => intro hval; rfl
      | cons e L2' ihl =>
        intro hval
        rcases hval e (List.mem_cons_self e L2') with ⟨it, hstat, hflag⟩
        have hstep : syncEntryStep presetForAppend
            (syncFolderGo presetForAppend f) src dst e fs = Except.ok fs := by
          cases it with
          | file c t r =>
            have hf2 : e.2 = false := by rw [hflag]; rfl
            unfold syncEntryStep
            rw [hf2]
            simp only [Bool.false_eq_true, if_false]
            rw [appendStep_eval fs (src ++ [e.1]) (dst ++ [e.1]) e.1 c t r
              hstat]
            have hdr := hdrained (src ++ [e.1]) c t r
              (List.prefix_append src [e.1]) hstat
            rw [List.drop_left] at hdr
            rw [hdr]
            rfl
          | dir =>
            have hf2 : e.2 = true := by rw [hflag]; rfl
            unfold syncEntryStep
            rw [hf2]
            simp only [if_true]
            have hcp := hdirs (src ++ [e.1]) (List.prefix_append src [e.1])
              hstat
            rw [List.drop_left] at hcp
            have hex : existsFS fs (dst ++ [e.1]) = true := by
              unfold existsFS
              rw [hcp]
              rfl
            rw [if_pos hex]
            apply ih (src ++ [e.1]) (dst ++ [e.1]) fs hwf hstat hcp
            · exact child_disjoint hsd hds e.1 e.1
            · intro hcon
              exact child_disjoint hds hsd e.1 e.1 hcon
            · intro p hp hpd
              have hh := hdirs p ((List.prefix_append src [e.1]).trans hp) hpd
              rw [List.length_append, List.length_singleton,
                counterpart_child hp]
              exact hh
            · intro p c t r hp hpf
              have hh := hdrained p c t r
                ((List.prefix_append src [e.1]).trans hp) hpf
              rw [List.length_append, List.length_singleton,
                counterpart_child hp]
              exact hh
            · intro q hq hqd
              have := hfuel q ((List.prefix_append src [e.1]).trans hq) hqd
              rw [List.length_append, List.length_singleton]
              omega
        unfold syncList
        rw [hstep]
        exact ihl (fun e2 he2 => hval e2 (List.mem_cons_of_mem e he2))
    have hLrun := hlist Ls (fun e he => by
      rcases readDir_entry fs hwf.1 src Ls hLs e.1 e.2
          (by cases e; exact he) with ⟨it, h1, h2⟩
      exact ⟨it, h1, h2⟩)
    unfold syncFolderGo
    rw [hLs, hMd]
    simp only [hLrun]
    rfl

/-- Helper: a child path is never a prefix of its parent. -/
theorem not_concat_prefix_self (s : Path) (a : String) :
    ¬ (s ++ [a]) <+: s := by
  intro h
  have := h.length_le
  simp at this

/-- Helper: two children of `s` lying on the same path share the name. -/
theorem child_prefix_name {s : Path} {a b : String} {q : Path}
    (ha : (s ++ [a]) <+: q) (hb : (s ++ [b]) <+: q) : a = b := by
  rcases List.prefix_or_prefix_of_prefix ha hb with h | h
  · have := h.eq_of_length (by simp)
    simpa using this
  · have := h.eq_of_length (by simp)
    simpa using this.symm

/-- Helper: in a well-formed state, nothing lives strictly below a
file. -/
theorem under_file_none (fs : FS) (hwf : WF fs) (p0 p : Path)
    (c : List Nat) (t : Int) (r : Bool)
    (hfile : statFS fs p0 = some (FsItem.file c t r)) (hp : p0 <+: p)
    (hne : p ≠ p0) : statFS fs p = none := by
  cases hstat : statFS fs p with
  | none => rfl
  | some it =>
    exfalso
    have hp0ne : p0 ≠ [] := by
      intro h
      rw [h] at hfile
      simp [statFS] at hfile
    have hpne : p ≠ [] := by
      intro h
      rw [h] at hp
      have := hp.length_le
      rw [h] at hne
      cases List.length_eq_zero.mp (Nat.le_zero.mp (by simpa using this))
      exact hne rfl
    have hmem := statFS_mem fs p it hpne hstat
    have hlt : p0.length < p.length := by
      rcases Nat.lt_or_ge p0.length p.length with h | h
      · exact h
      · exact absurd (hp.eq_of_length (le_antisymm hp.length_le h)).symm hne
    have := hwf.2.2 (p, it) hmem p0.length (List.length_pos.mpr hp0ne) hlt
    have htake : p.take p0.length = p0 :=
      (List.prefix_iff_eq_take.mp hp).symm
    rw [htake, hfile] at this
    cases this

/-- Helper: taking one component past `s` exposes the child. -/
theorem take_child (s : Path) (a : String) (t : Path) :
    (s ++ a :: t).take (s.length + 1) = s ++ [a] := by
  rw [List.take_append_eq_append_take, List.take_of_length_le (by omega)]
  simp

/-- Helper: a strict extension of `src` starts with some child name. -/
theorem split_strict_prefix {src p : Path} (h : src <+: p) (hne : p ≠ src) :
    ∃ n δ, p = src ++ n :: δ := by
  obtain ⟨rest, hrest⟩ := h
  cases rest with
  | nil => exact absurd (by rw [← hrest]; simp) hne
  | cons n δ => exact ⟨n, δ, hrest.symm⟩

/-- Helper: content identity depends only on the two paths' items. -/
theorem sameContent_congr (fsA fsB : FS) (a b : Path)
    (ha : statFS fsA a = statFS fsB a) (hb : statFS fsA b = statFS fsB b) :
    isFileSameContent fsA a b = isFileSameContent fsB a b := by
  rw [sameContent_eval, sameContent_eval, ha, hb]

/-- Helper: a successful listing means the path is a directory. -/
theorem readDir_some_dir (fs : FS) (d : Path) (L : List (String × Bool))
    (h : readDirFS fs d = some L) : statFS fs d = some FsItem.dir := by
  unfold readDirFS at h
  by_cases hdir : statFS fs d = some FsItem.dir
  · exact hdir
  · rw [if_neg hdir] at h
    cases h

/-- Witness for C9 at a concrete state. -/
theorem bmsDirSimilarity_spec_witness :
    bmsDirSimilarity w9fs ["A"] ["B"] =
      (((fetchDirElements w9fs ["A"]).mediaStems ∩
          (fetchDirElements w9fs ["B"]).mediaStems).card : ℚ) /
        (min (fetchDirElements w9fs ["A"]).mediaStems.card
          (fetchDirElements w9fs ["B"]).mediaStems.card : ℚ)
  ∧ bmsDirSimilarity w9fs ["A"] ["C"] = 0
  ∧ bmsDirSimilarity w9fs ["A"] ["A"] = 1 :=
  ⟨(bmsDirSimilarity_spec w9fs ["A"] ["B"]).1 (by decide) (by decide),
   (bmsDirSimilarity_spec w9fs ["A"] ["C"]).2.1 (Or.inr (by decide)),
   (bmsDirSimilarity_spec w9fs ["A"] ["A"]).2.2 (by decide)⟩

/-- Helper: no path lies under two disjoint roots. -/
theorem prefix_disjoint_no_common {src dst : Path} (hsd : ¬ src <+: dst)
    (hds : ¬ dst <+: src) (q : Path) (h1 : src <+: q) (h2 : dst <+: q) :
    False :=
  (List.prefix_or_prefix_of_prefix h1 h2).elim hsd hds

/-- Helper: one `syncFolderGo` level without destination cleanup is just
its `syncList` pass. -/
theorem syncFolderGo_succ_eval (f : Nat) (src dst : Path) (fs : FS)
    (Ls Md : List (String × Bool))
    (hLs : readDirFS fs src = some Ls) (hMd : readDirFS fs dst = some Md) :
    syncFolderGo presetForAppend (f + 1) src dst fs =
      syncList presetForAppend (syncFolderGo presetForAppend f) src dst Ls
        fs := by
  unfold syncFolderGo
  rw [hLs, hMd]
  rcases hh : syncList presetForAppend (syncFolderGo presetForAppend f) src
      dst Ls fs with e | fs2 <;> simp only [hh] <;> try rfl

/-- Helper: `stat` ignores a consed entry at a different key. -/
theorem statFS_cons_ne (fs : FS) (p : Path) (it : FsItem) (q : Path)
    (hq : q ≠ p) :
    statFS ⟨(p, it) :: fs.entries⟩ q = statFS fs q := by
  by_cases hqe : q = []
  · rw [hqe]
    rfl
  · rw [statFS_cons fs p it q hqe, if_neg hq]

/-- Helper: in a well-formed state, anything holding a path below
`d ++ [a]` forces something to live at `d ++ [a]` itself. -/
theorem ancestor_stat (fs : FS) (hwf : WF fs) (d : Path) (a : String)
    (p : Path) (it : FsItem) (h : statFS fs p = some it)
    (hpre : (d ++ [a]) <+: p) : ∃ it2, statFS fs (d ++ [a]) = some it2 := by
  by_cases hpe : p = d ++ [a]
  · exact ⟨it, by rw [← hpe]; exact h⟩
  · have hpne : p ≠ [] := by
      intro hc
      rw [hc] at hpre
      have := hpre.length_le
      simp at this
    have hmem := statFS_mem fs p it hpne h
    have hlt : d.length + 1 < p.length := by
      have hle := hpre.length_le
      simp only [List.length_append, List.length_singleton] at hle
      rcases Nat.lt_or_ge (d.length + 1) p.length with hlt | hge
      · exact hlt
      · exfalso
        apply hpe
        have hlen : (d ++ [a]).length = p.length := by
          rw [List.length_append, List.length_singleton]
          omega
        exact (hpre.eq_of_length hlen).symm
    have hdir := hwf.2.2 (p, it) hmem (d.length + 1) (by omega) hlt
    have htake : p.take (d.length + 1) = d ++ [a] := by
      have h2 := List.prefix_iff_eq_take.mp hpre
      rw [List.length_append, List.length_singleton] at h2
      exact h2.symm
    rw [htake] at hdir
    exact ⟨FsItem.dir, hdir⟩

/-- Helper: every proper prefix of a child of an existing directory is a
directory. -/
theorem prefixes_of_child_dir (fs : FS) (hwf : WF fs) (d : Path)
    (a : String) (hd : statFS fs d = some FsItem.dir) (n : Nat)
    (hn1 : 0 < n) (hn2 : n < (d ++ [a]).length) :
    statFS fs ((d ++ [a]).take n) = some FsItem.dir := by
  have hn2' : n ≤ d.length := by
    simp only [List.length_append, List.length_singleton] at hn2
    omega
  have htake : (d ++ [a]).take n = d.take n := by
    rw [List.take_append_eq_append_take]
    have h0 : n - d.length = 0 := by omega
    rw [h0]
    simp
  rw [htake]
  rcases Nat.eq_or_lt_of_le hn2' with heq | hlt
  · rw [heq, List.take_length]
    exact hd
  · have hdne : d ≠ [] := by
      intro hc
      rw [hc] at hlt
      simp at hlt
    have hmem := statFS_mem fs d FsItem.dir hdne hd
    exact hwf.2.2 (d, FsItem.dir) hmem n hn1 hlt

/-- Helper: the `EntryDrain` clauses for a file child, given the two
pointwise facts about the step's result. -/
theorem entryDrain_of_file (f : Nat) (src dst : Path) (e : String × Bool)
    (fsc fsc2 : FS) (hwfc : WF fsc)
    (hsd : ¬ src <+: dst) (hds : ¬ dst <+: src)
    (c0 : List Nat) (t0 : Int) (r0 : Bool)
    (hstat : statFS fsc (src ++ [e.1]) = some (FsItem.file c0 t0 r0))
    (hS1 : statFS fsc2 (src ++ [e.1]) =
      (if isFileSameContent fsc (src ++ [e.1]) (dst ++ [e.1]) = true
       then none else some (FsItem.file c0 t0 r0)))
    (hS2 : ∀ q, q ≠ src ++ [e.1] → statFS fsc2 q = statFS fsc q)
    (hwf2 : WF fsc2) :
    EntryDrain f src dst e fsc fsc2 := by
  have hq_of : ∀ q, (dst ++ [e.1]) <+: q → q ≠ src ++ [e.1] := by
    intro q hq hqq
    apply prefix_disjoint_no_common hsd hds q
    · rw [hqq]
      exact List.prefix_append src [e.1]
    · exact (List.prefix_append dst [e.1]).trans hq
  refine ⟨?_, ?_, ?_, ?_, ?_, hwf2, ?_⟩
  · intro p hp
    by_cases hpp : p = src ++ [e.1]
    · subst hpp
      refine ⟨?_, ?_, ?_⟩
      · intro c t r hst
        rw [hstat] at hst
        have hin := Option.some.inj hst
        cases hin
        rw [List.drop_left]
        exact hS1
      · intro hd
        rw [hstat] at hd
        exact absurd (Option.some.inj hd) (by intro hcon; cases hcon)
      · intro hn
        rw [hstat] at hn
        cases hn
    · have hnone := under_file_none fsc hwfc (src ++ [e.1]) p c0 t0 r0
        hstat hp hpp
      refine ⟨?_, ?_, ?_⟩
      · intro c t r hst
        rw [hnone] at hst
        cases hst
      · intro hd
        rw [hnone] at hd
        cases hd
      · intro _
        rw [hS2 p hpp]
        exact hnone
  · intro q hq1 _
    refine hS2 q ?_
    intro hqq
    exact hq1 (by rw [hqq])
  · intro q it2 hq hst
    rw [hS2 q (hq_of q hq)]
    exact hst
  · intro q hq hn
    left
    rw [hS2 q (hq_of q hq)]
    exact hn
  · intro p hp hd
    exfalso
    by_cases hpp : p = src ++ [e.1]
    · rw [hpp, hstat] at hd
      exact absurd (Option.some.inj hd) (by intro hcon; cases hcon)
    · rw [under_file_none fsc hwfc (src ++ [e.1]) p c0 t0 r0 hstat hp
        hpp] at hd
      cases hd
  · intro q hq hd
    exfalso
    by_cases hpp : q = src ++ [e.1]
    · rw [hpp, hstat] at hd
      exact absurd (Option.some.inj hd) (by intro hcon; cases hcon)
    · rw [under_file_none fsc hwfc (src ++ [e.1]) q c0 t0 r0 hstat hq
        hpp] at hd
      cases hd

/-- Helper: the `EntryDrain` clauses for a directory child, given how
the pre-recursion state `fs1` relates to `fsc` and a successful
recursive run realising the induction hypothesis. -/
theorem entryDrain_of_dir (f : Nat) (src dst : Path) (e : String × Bool)
    (fsc fs1 fsc2 : FS) (ihm : DrainMaster f) (hwfc : WF fsc)
    (hsd : ¬ src <+: dst) (hds : ¬ dst <+: src)
    (hstat : statFS fsc (src ++ [e.1]) = some FsItem.dir)
    (htr : ∀ q, q ≠ dst ++ [e.1] → statFS fs1 q = statFS fsc q)
    (hcp : statFS fs1 (dst ++ [e.1]) = some FsItem.dir)
    (hold : ∀ it2, statFS fsc (dst ++ [e.1]) = some it2 →
      it2 = FsItem.dir)
    (hwf1 : WF fs1)
    (hrun1 : syncFolderGo presetForAppend f (src ++ [e.1]) (dst ++ [e.1])
      fs1 = Except.ok fsc2) :
    EntryDrain f src dst e fsc fsc2 := by
  have hcsd : ¬ (src ++ [e.1]) <+: dst ++ [e.1] :=
    child_disjoint hsd hds e.1 e.1
  have hcds : ¬ (dst ++ [e.1]) <+: src ++ [e.1] :=
    child_disjoint hds hsd e.1 e.1
  have hne0 : (src ++ [e.1] : Path) ≠ dst ++ [e.1] := by
    intro hcon
    exact hcsd (by rw [hcon])
  have hpncp : ∀ p, (src ++ [e.1]) <+: p → p ≠ dst ++ [e.1] := by
    intro p hp hcon
    exact prefix_disjoint_no_common hsd hds p
      ((List.prefix_append src [e.1]).trans hp)
      (by rw [hcon]; exact List.prefix_append dst [e.1])
  have hsrc1 : statFS fs1 (src ++ [e.1]) = some FsItem.dir := by
    rw [htr _ hne0]
    exact hstat
  obtain ⟨hD, hwf2, hG⟩ := ihm (src ++ [e.1]) (dst ++ [e.1]) fs1 fsc2
    hwf1 hcsd hcds hsrc1 hcp hrun1
  obtain ⟨A, B, C, D, E, F⟩ := hD
  refine ⟨?_, ?_, ?_, ?_, ?_, hwf2, ?_⟩
  · intro p hp
    by_cases hpp : p = src ++ [e.1]
    · subst hpp
      refine ⟨?_, ?_, ?_⟩
      · intro c t r hst
        rw [hstat] at hst
        exact absurd (Option.some.inj hst) (by intro hcon; cases hcon)
      · intro _
        exact F
      · intro hn
        rw [hstat] at hn
        cases hn
    · have hp1 : statFS fs1 p = statFS fsc p := htr p (hpncp p hp)
      refine ⟨?_, ?_, ?_⟩
      · intro c t r hst
        have hst1 : statFS fs1 p = some (FsItem.file c t r) := by
          rw [hp1]
          exact hst
        have hres := (A p hp hpp).1 c t r hst1
        obtain ⟨tl, htl⟩ := hp
        have htlne : tl ≠ [] := by
          intro hc
          rw [hc, List.append_nil] at htl
          exact hpp htl.symm
        have hdropp : p.drop src.length = e.1 :: p.drop (src.length + 1) :=
          drop_child ⟨tl, htl⟩
        have hdrop2 : p.drop (src.length + 1) = tl := by
          rw [← htl]
          have hl1 : src.length + 1 = (src ++ [e.1]).length := by simp
          rw [hl1, List.drop_left]
        have hXeq : (dst ++ [e.1]) ++ p.drop ((src ++ [e.1]).length) =
            dst ++ p.drop src.length := by
          have hlen : (src ++ [e.1]).length = src.length + 1 := by simp
          rw [hlen]
          exact counterpart_child ⟨tl, htl⟩
        have hXne : dst ++ p.drop src.length ≠ dst ++ [e.1] := by
          rw [hdropp, hdrop2]
          intro hcon
          have hlencon := congrArg List.length hcon
          simp only [List.length_append, List.length_cons,
            List.length_singleton, List.length_nil] at hlencon
          have h0 : tl.length = 0 := by omega
          exact htlne (List.eq_nil_of_length_eq_zero h0)
        have hX1 : statFS fs1 (dst ++ p.drop src.length) =
            statFS fsc (dst ++ p.drop src.length) := htr _ hXne
        rw [hXeq, sameContent_congr fs1 fsc p (dst ++ p.drop src.length)
          hp1 hX1] at hres
        exact hres
      · intro hd
        have hd1 : statFS fs1 p = some FsItem.dir := by
          rw [hp1]
          exact hd
        exact (A p hp hpp).2.1 hd1
      · intro hn
        have hn1 : statFS fs1 p = none := by
          rw [hp1]
          exact hn
        exact (A p hp hpp).2.2 hn1
  · intro q hq1 hq2
    have hqne : q ≠ dst ++ [e.1] := by
      intro hcon
      exact hq2 (by rw [hcon])
    exact (B q hq1 hq2).trans (htr q hqne)
  · intro q it2 hq hst
    by_cases hqc : q = dst ++ [e.1]
    · subst hqc
      have hit2 := hold it2 hst
      subst hit2
      exact C (dst ++ [e.1]) FsItem.dir (List.prefix_refl _) hcp
    · have hst1 : statFS fs1 q = some it2 := by
        rw [htr q hqc]
        exact hst
      exact C q it2 hq hst1
  · intro q hq hn
    by_cases hqc : q = dst ++ [e.1]
    · subst hqc
      right
      exact C _ FsItem.dir (List.prefix_refl _) hcp
    · have hn1 : statFS fs1 q = none := by
        rw [htr q hqc]
        exact hn
      exact D q hq hn1
  · intro p hp hd
    by_cases hpp : p = src ++ [e.1]
    · subst hpp
      rw [List.drop_left]
      have hE := E (src ++ [e.1]) (List.prefix_refl _) hsrc1
      rw [List.drop_length, List.append_nil] at hE
      exact hE
    · have hd1 : statFS fs1 p = some FsItem.dir := by
        rw [htr p (hpncp p hp)]
        exact hd
      have hE := E p hp hd1
      have hlen : (src ++ [e.1]).length = src.length + 1 := by simp
      rw [hlen, counterpart_child hp] at hE
      exact hE
  · intro q hq hd
    have hd1 : statFS fs1 q = some FsItem.dir := by
      rw [htr q (hpncp q hq)]
      exact hd
    have hGq := hG q hq hd1
    have hlen : (src ++ [e.1]).length = src.length + 1 := by simp
    rw [hlen] at hGq
    omega

/-- Helper: a successful `syncEntryStep` of the append/drain run
realises `EntryDrain`, whatever the child is. -/
theorem syncEntryStep_drain (f : Nat) (src dst : Path) (e : String × Bool)
    (fsc fsc2 : FS) (ihm : DrainMaster f) (hwfc : WF fsc)
    (hsd : ¬ src <+: dst) (hds : ¬ dst <+: src)
    (hdstc : statFS fsc dst = some FsItem.dir) (it : FsItem)
    (hstat : statFS fsc (src ++ [e.1]) = some it)
    (hflag : e.2 = decide (it = FsItem.dir))
    (hstep : syncEntryStep presetForAppend (syncFolderGo presetForAppend f)
      src dst e fsc = Except.ok fsc2) :
    EntryDrain f src dst e fsc fsc2 := by
  cases it with
  | file c0 t0 r0 =>
    have hf2 : e.2 = false := by rw [hflag]; rfl
    unfold syncEntryStep at hstep
    rw [hf2] at hstep
    simp only [Bool.false_eq_true, if_false] at hstep
    rw [appendStep_eval fsc (src ++ [e.1]) (dst ++ [e.1]) e.1 c0 t0 r0
      hstat] at hstep
    by_cases hsame : isFileSameContent fsc (src ++ [e.1])
        (dst ++ [e.1]) = true
    · rw [if_pos hsame] at hstep
      have hfs2 : fsc2 = eraseTree fsc (src ++ [e.1]) :=
        (Except.ok.inj hstep).symm
      subst hfs2
      refine entryDrain_of_file f src dst e fsc _ hwfc hsd hds c0 t0 r0
        hstat ?_ ?_ (WF_erase fsc hwfc _)
      · rw [if_pos hsame]
        exact statFS_erase_under fsc (src ++ [e.1]) (src ++ [e.1])
          (List.prefix_refl _) (by simp)
      · intro q hq
        by_cases hpq : (src ++ [e.1]) <+: q
        · have hqe : q ≠ [] := by
            intro hc
            rw [hc] at hpq
            have := hpq.length_le
            simp at this
          rw [statFS_erase_under fsc _ q hpq hqe,
            under_file_none fsc hwfc _ q c0 t0 r0 hstat hpq hq]
        · exact statFS_erase_preserve fsc _ q hpq
    · rw [if_neg hsame] at hstep
      have hfs2 : fsc2 = fsc := (Except.ok.inj hstep).symm
      rw [hfs2]
      refine entryDrain_of_file f src dst e fsc fsc hwfc hsd hds c0 t0 r0
        hstat ?_ (fun q _ => rfl) hwfc
      rw [if_neg hsame]
      exact hstat
  | dir =>
    have hf2 : e.2 = true := by rw [hflag]; rfl
    unfold syncEntryStep at hstep
    rw [hf2] at hstep
    have hchild : syncFolderGo presetForAppend f (src ++ [e.1])
        (dst ++ [e.1])
        (if existsFS fsc (dst ++ [e.1]) then fsc
         else mkdirFS fsc (dst ++ [e.1])) = Except.ok fsc2 := hstep
    by_cases hex : existsFS fsc (dst ++ [e.1]) = true
    · rw [if_pos hex] at hchild
      unfold existsFS at hex
      rcases hit0 : statFS fsc (dst ++ [e.1]) with _ | it0
      · rw [hit0] at hex
        cases hex
      cases it0 with
      | file c1 t1 r1 =>
        exfalso
        have hnone : readDirFS fsc (dst ++ [e.1]) = none := by
          unfold readDirFS
          rw [if_neg]
          intro hcon
          rw [hit0] at hcon
          exact FsItem.noConfusion (Option.some.inj hcon)
        cases f with
        | zero =>
          have hcc : (Except.error () : Except Unit FS) = Except.ok fsc2 :=
            hchild
          cases hcc
        | succ f2 =>
          unfold syncFolderGo at hchild
          rw [hnone] at hchild
          rcases hro : readDirFS fsc (src ++ [e.1]) with _ | L0 <;>
            rw [hro] at hchild
          · have hcc : (Except.error () : Except Unit FS) =
                Except.ok fsc2 := hchild
            cases hcc
          · have hcc : (Except.error () : Except Unit FS) =
                Except.ok fsc2 := hchild
            cases hcc
      | dir =>
        exact entryDrain_of_dir f src dst e fsc fsc fsc2 ihm hwfc hsd hds
          hstat (fun q _ => rfl) hit0
          (fun it2 h => by rw [hit0] at h; exact (Option.some.inj h).symm)
          hwfc hchild
    · have hex2 : existsFS fsc (dst ++ [e.1]) = false :=
        Bool.eq_false_iff.mpr hex
      rw [if_neg hex] at hchild
      have hmiss : statFS fsc (dst ++ [e.1]) = none := by
        unfold existsFS at hex2
        cases hc : statFS fsc (dst ++ [e.1]) with
        | none => rfl
        | some it2 =>
          rw [hc] at hex2
          cases hex2
      have hpre2 : ∀ n, 0 < n → n < (dst ++ [e.1]).length →
          existsFS fsc ((dst ++ [e.1]).take n) = true := by
        intro n h1 h2
        unfold existsFS
        rw [prefixes_of_child_dir fsc hwfc dst e.1 hdstc n h1 h2]
        rfl
      have hmk : mkdirFS fsc (dst ++ [e.1]) =
          ⟨(dst ++ [e.1], FsItem.dir) :: fsc.entries⟩ :=
        mkdirFS_one fsc (dst ++ [e.1]) (by simp) hpre2 hex2
      rw [hmk] at hchild
      refine entryDrain_of_dir f src dst e fsc
        ⟨(dst ++ [e.1], FsItem.dir) :: fsc.entries⟩ fsc2 ihm hwfc hsd hds
        hstat (fun q hq => statFS_cons_ne fsc (dst ++ [e.1]) FsItem.dir q
          hq) ?_ (fun it2 h => by rw [hmiss] at h; cases h) ?_ hchild
      · rw [statFS_cons fsc (dst ++ [e.1]) FsItem.dir (dst ++ [e.1])
          (by simp), if_pos rfl]
      · exact WF_cons_dir fsc hwfc (dst ++ [e.1]) (by simp) hmiss
          (fun n h1 h2 => prefixes_of_child_dir fsc hwfc dst e.1 hdstc n
            h1 h2)

/-- Helper: `ListDrain` composes one `EntryDrain` head step with a
`ListDrain` tail whose base state is the head's result. -/
theorem listDrain_cons (f : Nat) (src dst : Path) (e : String × Bool)
    (L2' : List (String × Bool)) (fsc fsc2 fsOut : FS)
    (hname : e.1 ∉ L2'.map Prod.fst)
    (hsd : ¬ src <+: dst) (hds : ¬ dst <+: src)
    (hhead : EntryDrain f src dst e fsc fsc2)
    (htail : ListDrain f src dst L2' fsc2 fsOut) :
    ListDrain f src dst (e :: L2') fsc fsOut := by
  obtain ⟨T1, T2, T3, T4, T5, T6, T7⟩ := hhead
  obtain ⟨K1, K2, K3, K4, K5, K6, K7⟩ := htail
  have hname2 : ∀ e2 ∈ L2', e2.1 ≠ e.1 := by
    intro e2 he2 hcon
    exact hname (hcon ▸ List.mem_map_of_mem Prod.fst he2)
  have hTr : ∀ e2 ∈ L2', ∀ q, (src ++ [e2.1]) <+: q →
      statFS fsc2 q = statFS fsc q := by
    intro e2 he2 q hq
    apply T2
    · intro hcon
      exact hname2 e2 he2 (child_prefix_name hq hcon)
    · intro hcon
      exact prefix_disjoint_no_common hsd hds q
        ((List.prefix_append src [e2.1]).trans hq)
        ((List.prefix_append dst [e.1]).trans hcon)
  have hTrD : ∀ e2 ∈ L2', ∀ q, (dst ++ [e2.1]) <+: q →
      statFS fsc2 q = statFS fsc q := by
    intro e2 he2 q hq
    apply T2
    · intro hcon
      exact prefix_disjoint_no_common hsd hds q
        ((List.prefix_append src [e.1]).trans hcon)
        ((List.prefix_append dst [e2.1]).trans hq)
    · intro hcon
      exact hname2 e2 he2 (child_prefix_name hq hcon)
  have hHd : ∀ q, (src ++ [e.1]) <+: q →
      statFS fsOut q = statFS fsc2 q := by
    intro q hq
    apply K2
    · intro e2 he2 hcon
      exact absurd (child_prefix_name hcon hq) (hname2 e2 he2)
    · intro e2 he2 hcon
      exact prefix_disjoint_no_common hsd hds q
        ((List.prefix_append src [e.1]).trans hq)
        ((List.prefix_append dst [e2.1]).trans hcon)
  have hHdD : ∀ q, (dst ++ [e.1]) <+: q →
      statFS fsOut q = statFS fsc2 q := by
    intro q hq
    apply K2
    · intro e2 he2 hcon
      exact prefix_disjoint_no_common hsd hds q
        ((List.prefix_append src [e2.1]).trans hcon)
        ((List.prefix_append dst [e.1]).trans hq)
    · intro e2 he2 hcon
      exact absurd (child_prefix_name hcon hq) (hname2 e2 he2)
  refine ⟨?_, ?_, ?_, ?_, ?_, K6, ?_⟩
  · intro e2 he2 p hp
    rcases List.mem_cons.mp he2 with he | he
    · subst he
      refine ⟨?_, ?_, ?_⟩
      · intro c t r hst
        rw [hHd p hp]
        exact (T1 p hp).1 c t r hst
      · intro hd
        rw [hHd p hp]
        exact (T1 p hp).2.1 hd
      · intro hn
        rw [hHd p hp]
        exact (T1 p hp).2.2 hn
    · have hp2 : statFS fsc2 p = statFS fsc p := hTr e2 he p hp
      have hXpre : (dst ++ [e2.1]) <+: dst ++ p.drop src.length := by
        rw [← counterpart_child hp]
        exact List.prefix_append _ _
      have hX2 : statFS fsc2 (dst ++ p.drop src.length) =
          statFS fsc (dst ++ p.drop src.length) := hTrD e2 he _ hXpre
      refine ⟨?_, ?_, ?_⟩
      · intro c t r hst
        have hres := (K1 e2 he p hp).1 c t r (by rw [hp2]; exact hst)
        rw [sameContent_congr fsc2 fsc p (dst ++ p.drop src.length) hp2
          hX2] at hres
        exact hres
      · intro hd
        exact (K1 e2 he p hp).2.1 (by rw [hp2]; exact hd)
      · intro hn
        exact (K1 e2 he p hp).2.2 (by rw [hp2]; exact hn)
  · intro q hq1 hq2
    have h1 := K2 q (fun e2 he2 => hq1 e2 (List.mem_cons_of_mem e he2))
      (fun e2 he2 => hq2 e2 (List.mem_cons_of_mem e he2))
    have h2 := T2 q (hq1 e (List.mem_cons_self e L2'))
      (hq2 e (List.mem_cons_self e L2'))
    exact h1.trans h2
  · intro e2 he2 q it hq hst
    rcases List.mem_cons.mp he2 with he | he
    · subst he
      exact (hHdD q hq).trans (T3 q it hq hst)
    · exact K3 e2 he q it hq (by rw [hTrD e2 he q hq]; exact hst)
  · intro e2 he2 q hq hn
    rcases List.mem_cons.mp he2 with he | he
    · subst he
      rcases T4 q hq hn with h | h
      · left
        rw [hHdD q hq]
        exact h
      · right
        rw [hHdD q hq]
        exact h
    · exact K4 e2 he q hq (by rw [hTrD e2 he q hq]; exact hn)
  · intro e2 he2 p hp hd
    rcases List.mem_cons.mp he2 with he | he
    · subst he
      have hXpre : (dst ++ [e2.1]) <+: dst ++ p.drop src.length := by
        rw [← counterpart_child hp]
        exact List.prefix_append _ _
      exact (hHdD _ hXpre).trans (T5 p hp hd)
    · exact K5 e2 he p hp (by rw [hTr e2 he p hp]; exact hd)
  · intro e2 he2 q hq hd
    rcases List.mem_cons.mp he2 with he | he
    · subst he
      exact T7 q hq hd
    · exact K7 e2 he q hq (by rw [hTr e2 he q hq]; exact hd)

/-- Helper: a successful `syncList` pass of the append/drain run over
distinct, validly-flagged children realises `ListDrain`. -/
theorem syncList_drain (f : Nat) (src dst : Path)
    (hsd : ¬ src <+: dst) (hds : ¬ dst <+: src) (ihm : DrainMaster f) :
    ∀ L2 : List (String × Bool), ∀ fsc fsOut : FS,
      (L2.map Prod.fst).Nodup →
      (∀ e ∈ L2, ∃ it, statFS fsc (src ++ [e.1]) = some it ∧
        e.2 = decide (it = FsItem.dir)) →
      WF fsc → statFS fsc src = some FsItem.dir →
      statFS fsc dst = some FsItem.dir →
      syncList presetForAppend (syncFolderGo presetForAppend f) src dst L2
        fsc = Except.ok fsOut →
      ListDrain f src dst L2 fsc fsOut := by
  intro L2
  induction L2 with
  | nil =>
    intro fsc fsOut hnd hvals hwfc hsrcc hdstc hrunc
    have hout : (Except.ok fsc : Except Unit FS) = Except.ok fsOut := hrunc
    have hfs : fsc = fsOut := Except.ok.inj hout
    subst hfs
    refine ⟨?_, ?_, ?_, ?_, ?_, hwfc, ?_⟩
    · intro e2 he2
      cases he2
    · intro q _ _
      rfl
    · intro e2 he2
      cases he2
    · intro e2 he2
      cases he2
    · intro e2 he2
      cases he2
    · intro e2 he2
      cases he2
  | cons e L2' ihl =>
    intro fsc fsOut hnd hvals hwfc hsrcc hdstc hrunc
    unfold syncList at hrunc
    rcases hstep : syncEntryStep presetForAppend
        (syncFolderGo presetForAppend f) src dst e fsc with err | fsc2
    · rw [hstep] at hrunc
      have hcc : (Except.error err : Except Unit FS) = Except.ok fsOut :=
        hrunc
      cases hcc
    · rw [hstep] at hrunc
      have hrunc2 : syncList presetForAppend
          (syncFolderGo presetForAppend f) src dst L2' fsc2 =
          Except.ok fsOut := hrunc
      rw [List.map_cons, List.nodup_cons] at hnd
      rcases hvals e (List.mem_cons_self e L2') with ⟨it, hstat, hflag⟩
      have hhead : EntryDrain f src dst e fsc fsc2 :=
        syncEntryStep_drain f src dst e fsc fsc2 ihm hwfc hsd hds hdstc it
          hstat hflag hstep
      have hT2 := hhead.2.1
      have hname2 : ∀ e2 ∈ L2', e2.1 ≠ e.1 := by
        intro e2 he2 hcon
        exact hnd.1 (hcon ▸ List.mem_map_of_mem Prod.fst he2)
      have hvals' : ∀ e2 ∈ L2', ∃ it2,
          statFS fsc2 (src ++ [e2.1]) = some it2 ∧
          e2.2 = decide (it2 = FsItem.dir) := by
        intro e2 he2
        rcases hvals e2 (List.mem_cons_of_mem e he2) with ⟨it2, h1, h2⟩
        refine ⟨it2, ?_, h2⟩
        rw [hT2 (src ++ [e2.1]) ?_ ?_]
        · exact h1
        · intro hcon
          exact hname2 e2 he2
            (child_prefix_name (List.prefix_refl _) hcon)
        · exact child_disjoint hds hsd e.1 e2.1
      have hsrcc2 : statFS fsc2 src = some FsItem.dir := by
        rw [hT2 src (not_concat_prefix_self src e.1) ?_]
        · exact hsrcc
        · intro hcon
          exact hds ((List.prefix_append dst [e.1]).trans hcon)
      have hdstc2 : statFS fsc2 dst = some FsItem.dir := by
        rw [hT2 dst ?_ (not_concat_prefix_self dst e.1)]
        · exact hdstc
        · intro hcon
          exact hsd ((List.prefix_append src [e.1]).trans hcon)
      have htail := ihl fsc2 fsOut hnd.2 hvals' hhead.2.2.2.2.2.1 hsrcc2
        hdstc2 hrunc2
      exact listDrain_cons f src dst e L2' fsc fsc2 fsOut hnd.1 hsd hds
        hhead htail

/-- The master lemma for C7: at every fuel level, a successful
append/drain `syncFolderGo` run realises `DrainRel`, keeps the state
well-formed, and witnesses that the fuel exceeded the source depth. -/
theorem syncFolderGo_drain : ∀ fuel, DrainMaster fuel := by
  intro fuel
  induction fuel with
  | zero =>
    intro src dst fs fs1 _ _ _ _ _ hrun
    have hcc : (Except.error () : Except Unit FS) = Except.ok fs1 := hrun
    cases hcc
  | succ f ihm =>
    intro src dst fs fs1 hwf hsd hds hsrc hdst hrun
    rcases hLs : readDirFS fs src with _ | Ls
    · exfalso
      unfold readDirFS at hLs
      rw [if_pos hsrc] at hLs
      cases hLs
    rcases hMd : readDirFS fs dst with _ | Md
    · exfalso
      unfold readDirFS at hMd
      rw [if_pos hdst] at hMd
      cases hMd
    rw [syncFolderGo_succ_eval f src dst fs Ls Md hLs hMd] at hrun
    have hnd := readDir_nodup fs hwf src Ls hLs
    have hvals : ∀ e ∈ Ls, ∃ it, statFS fs (src ++ [e.1]) = some it ∧
        e.2 = decide (it = FsItem.dir) := by
      intro e he
      exact readDir_entry fs hwf.1 src Ls hLs e.1 e.2
        (by cases e; exact he)
    obtain ⟨K1, K2, K3, K4, K5, K6, K7⟩ :=
      syncList_drain f src dst hsd hds ihm Ls fs fs1 hnd hvals hwf hsrc
        hdst hrun
    have hKdst : statFS fs1 dst = statFS fs dst := by
      apply K2
      · intro e2 he2 hcon
        exact hsd ((List.prefix_append src [e2.1]).trans hcon)
      · intro e2 he2 hcon
        exact not_concat_prefix_self dst e2.1 hcon
    refine ⟨⟨?_, ?_, ?_, ?_, ?_, ?_⟩, K6, ?_⟩
    · intro p hp hne
      rcases split_strict_prefix hp hne with ⟨a, δ, hpd⟩
      have hpa : (src ++ [a]) <+: p := by
        rw [hpd]
        exact ⟨δ, by simp⟩
      cases hax : statFS fs (src ++ [a]) with
      | some ita =>
        exact K1 (a, decide (ita = FsItem.dir))
          (entry_readDir fs src Ls hLs a ita hax) p hpa
      | none =>
        refine ⟨?_, ?_, ?_⟩
        · intro c t r hst
          exfalso
          rcases ancestor_stat fs hwf src a p (FsItem.file c t r) hst hpa
            with ⟨it2, h2⟩
          rw [hax] at h2
          cases h2
        · intro hd
          exfalso
          rcases ancestor_stat fs hwf src a p FsItem.dir hd hpa with
            ⟨it2, h2⟩
          rw [hax] at h2
          cases h2
        · intro hn
          rw [K2 p ?_ ?_]
          · exact hn
          · intro e2 he2 hcon
            rcases hvals e2 he2 with ⟨it2, hstat2, _⟩
            rw [child_prefix_name hcon hpa] at hstat2
            rw [hax] at hstat2
            cases hstat2
          · intro e2 he2 hcon
            exact prefix_disjoint_no_common hsd hds p
              ((List.prefix_append src [a]).trans hpa)
              ((List.prefix_append dst [e2.1]).trans hcon)
    · intro q hq1 hq2
      apply K2
      · intro e2 he2 hcon
        exact hq1 ((List.prefix_append src [e2.1]).trans hcon)
      · intro e2 he2 hcon
        exact hq2 ((List.prefix_append dst [e2.1]).trans hcon)
    · intro q it hq hst
      by_cases hqd : q = dst
      · subst hqd
        rw [hKdst]
        exact hst
      · rcases split_strict_prefix hq hqd with ⟨a, δ, hqd2⟩
        have hqa : (dst ++ [a]) <+: q := by
          rw [hqd2]
          exact ⟨δ, by simp⟩
        by_cases hmem : ∃ e2 ∈ Ls, e2.1 = a
        · rcases hmem with ⟨e2, he2, hee⟩
          refine K3 e2 he2 q it ?_ hst
          rw [hee]
          exact hqa
        · rw [K2 q ?_ ?_]
          · exact hst
          · intro e2 he2 hcon
            exact prefix_disjoint_no_common hsd hds q
              ((List.prefix_append src [e2.1]).trans hcon)
              ((List.prefix_append dst [a]).trans hqa)
          · intro e2 he2 hcon
            exact hmem ⟨e2, he2, child_prefix_name hcon hqa⟩
    · intro q hq hn
      by_cases hqd : q = dst
      · subst hqd
        rw [hn] at hdst
        cases hdst
      · rcases split_strict_prefix hq hqd with ⟨a, δ, hqd2⟩
        have hqa : (dst ++ [a]) <+: q := by
          rw [hqd2]
          exact ⟨δ, by simp⟩
        by_cases hmem : ∃ e2 ∈ Ls, e2.1 = a
        · rcases hmem with ⟨e2, he2, hee⟩
          refine K4 e2 he2 q ?_ hn
          rw [hee]
          exact hqa
        · left
          rw [K2 q ?_ ?_]
          · exact hn
          · intro e2 he2 hcon
            exact prefix_disjoint_no_common hsd hds q
              ((List.prefix_append src [e2.1]).trans hcon)
              ((List.prefix_append dst [a]).trans hqa)
          · intro e2 he2 hcon
            exact hmem ⟨e2, he2, child_prefix_name hcon hqa⟩
    · intro p hp hd
      by_cases hps : p = src
      · subst hps
        rw [List.drop_length, List.append_nil, hKdst]
        exact hdst
      · rcases split_strict_prefix hp hps with ⟨a, δ, hpd⟩
        have hpa : (src ++ [a]) <+: p := by
          rw [hpd]
          exact ⟨δ, by simp⟩
        cases hax : statFS fs (src ++ [a]) with
        | some ita =>
          exact K5 (a, decide (ita = FsItem.dir))
            (entry_readDir fs src Ls hLs a ita hax) p hpa hd
        | none =>
          exfalso
          rcases ancestor_stat fs hwf src a p FsItem.dir hd hpa with
            ⟨it2, h2⟩
          rw [hax] at h2
          cases h2
    · rw [K2 src ?_ ?_]
      · exact hsrc
      · intro e2 he2 hcon
        exact not_concat_prefix_self src e2.1 hcon
      · intro e2 he2 hcon
        exact hds ((List.prefix_append dst [e2.1]).trans hcon)
    · intro q hq hd
      by_cases hqs : q = src
      · subst hqs
        omega
      · rcases split_strict_prefix hq hqs with ⟨a, δ, hqd2⟩
        have hqa : (src ++ [a]) <+: q := by
          rw [hqd2]
          exact ⟨δ, by simp⟩
        cases hax : statFS fs (src ++ [a]) with
        | some ita =>
          exact K7 (a, decide (ita = FsItem.dir))
            (entry_readDir fs src Ls hLs a ita hax) q hqa hd
        | none =>
          exfalso
          rcases ancestor_stat fs hwf src a q FsItem.dir hd hqa with
            ⟨it2, h2⟩
          rw [hax] at h2
          cases h2

/-- C7: a successful `syncFolder` run with the append/drain preset
(`presetForAppend`: no destination cleanup, size plus content-hash
comparison ignoring timestamps, `removeSrcSame`) deletes from the
source side exactly those source files whose destination counterpart is
content-identical (each source file ends up deleted when
`isFileSameContent` holds and untouched otherwise), keeps every source
directory and every destination entry, and a second run over the
resulting state is a no-op returning the state unchanged. -/
theorem append_drain_sync_spec (fuel : Nat) (src dst : Path) (fs fs1 : FS)
    (hwf : WF fs) (hsd : ¬ src <+: dst) (hds : ¬ dst <+: src)
    (hsrc : statFS fs src = some FsItem.dir)
    (hdst : statFS fs dst = some FsItem.dir)
    (hrun : syncFolder presetForAppend fuel src dst fs = Except.ok fs1) :
    (∀ p c t r, src <+: p → statFS fs p = some (FsItem.file c t r) →
      statFS fs1 p =
        (if isFileSameContent fs p (dst ++ p.drop src.length) = true
         then none else some (FsItem.file c t r)))
    ∧ (∀ p, src <+: p → statFS fs p = some FsItem.dir →
        statFS fs1 p = some FsItem.dir)
    ∧ (∀ q it, dst <+: q → statFS fs q = some it →
        statFS fs1 q = some it)
    ∧ syncFolder presetForAppend fuel src dst fs1 = Except.ok fs1 := by
  obtain ⟨hD, hwf1, hG⟩ := syncFolderGo_drain fuel src dst fs fs1 hwf hsd
    hds hsrc hdst hrun
  obtain ⟨A, B, C, D, E, F⟩ := hD
  have hdst1 : statFS fs1 dst = some FsItem.dir :=
    C dst FsItem.dir (List.prefix_refl dst) hdst
  refine ⟨?_, ?_, C, ?_⟩
  · intro p c t r hp hst
    have hne : p ≠ src := by
      intro hc
      rw [hc, hsrc] at hst
      exact absurd (Option.some.inj hst) (by intro hcon; cases hcon)
    exact (A p hp hne).1 c t r hst
  · intro p hp hd
    by_cases hps : p = src
    · subst hps
      exact F
    · exact (A p hp hps).2.1 hd
  · have hdirs1 : ∀ p, src <+: p → statFS fs1 p = some FsItem.dir →
        statFS fs1 (dst ++ p.drop src.length) = some FsItem.dir := by
      intro p hp hd1
      by_cases hps : p = src
      · subst hps
        rw [List.drop_length, List.append_nil]
        exact hdst1
      · cases hst : statFS fs p with
        | none =>
          rw [(A p hp hps).2.2 hst] at hd1
          cases hd1
        | some it =>
          cases it with
          | dir => exact E p hp hst
          | file c t r =>
            exfalso
            have h1 := (A p hp hps).1 c t r hst
            rw [h1] at hd1
            by_cases hsame : isFileSameContent fs p
                (dst ++ p.drop src.length) = true
            · rw [if_pos hsame] at hd1
              cases hd1
            · rw [if_neg hsame] at hd1
              exact FsItem.noConfusion (Option.some.inj hd1)
    have hdrained1 : ∀ p c t r, src <+: p →
        statFS fs1 p = some (FsItem.file c t r) →
        isFileSameContent fs1 p (dst ++ p.drop src.length) = false := by
      intro p c t r hp hf1
      by_cases hps : p = src
      · exfalso
        subst hps
        rw [F] at hf1
        exact FsItem.noConfusion (Option.some.inj hf1)
      · cases hst : statFS fs p with
        | none =>
          exfalso
          rw [(A p hp hps).2.2 hst] at hf1
          cases hf1
        | some it =>
          cases it with
          | dir =>
            exfalso
            rw [(A p hp hps).2.1 hst] at hf1
            exact FsItem.noConfusion (Option.some.inj hf1)
          | file c2 t2 r2 =>
            have h1 := (A p hp hps).1 c2 t2 r2 hst
            by_cases hsame : isFileSameContent fs p
                (dst ++ p.drop src.length) = true
            · exfalso
              rw [if_pos hsame] at h1
              rw [h1] at hf1
              cases hf1
            · rw [if_neg hsame] at h1
              have heq : statFS fs1 p = statFS fs p := by
                rw [h1, hst]
              have hsame2 : isFileSameContent fs p
                  (dst ++ p.drop src.length) = false :=
                Bool.eq_false_iff.mpr hsame
              cases hX : statFS fs (dst ++ p.drop src.length) with
              | some itX =>
                have hX1 : statFS fs1 (dst ++ p.drop src.length) =
                    statFS fs (dst ++ p.drop src.length) := by
                  rw [C _ itX (List.prefix_append dst _) hX, hX]
                rw [sameContent_congr fs1 fs p _ heq hX1]
                exact hsame2
              | none =>
                rcases D (dst ++ p.drop src.length)
                    (List.prefix_append dst _) hX with hno | hdir
                · rw [sameContent_eval, hf1, hno]
                  cases r <;> rfl
                · rw [sameContent_eval, hf1, hdir]
                  cases r <;> rfl
    have hfuel1 : ∀ q, src <+: q → statFS fs1 q = some FsItem.dir →
        q.length < src.length + fuel := by
      intro q hq hd1
      by_cases hqs : q = src
      · subst hqs
        exact hG q (List.prefix_refl q) hsrc
      · cases hst : statFS fs q with
        | none =>
          exfalso
          rw [(A q hq hqs).2.2 hst] at hd1
          cases hd1
        | some it =>
          cases it with
          | dir => exact hG q hq hst
          | file c t r =>
            exfalso
            have h1 := (A q hq hqs).1 c t r hst
            rw [h1] at hd1
            by_cases hsame : isFileSameContent fs q
                (dst ++ q.drop src.length) = true
            · rw [if_pos hsame] at hd1
              cases hd1
            · rw [if_neg hsame] at hd1
              exact FsItem.noConfusion (Option.some.inj hd1)
    exact syncFolderGo_noop fuel src dst fs1 hwf1 F hdst1 hsd hds hdirs1
      hdrained1 hfuel1

/-- Witness for C7 at a concrete state: the identical files (top level
and in the subdirectory) are drained, the differing file is kept, and
the second run fixes the result. -/
theorem append_drain_sync_spec_witness :
    statFS w7fs1 ["s", "same.txt"] = none ∧
    statFS w7fs1 ["s", "diff.txt"] = some (FsItem.file [2] 0 true) ∧
    statFS w7fs1 ["s", "sub", "deep.txt"] = none ∧
    statFS w7fs1 ["s", "sub"] = some FsItem.dir ∧
    syncFolder presetForAppend 3 ["s"] ["d"] w7fs1 = Except.ok w7fs1 := by
  have hwf : WF w7fs := by
    refine ⟨by decide, by decide, ?_⟩
    intro e he n h1 h2
    fin_cases he <;> simp only [List.length_cons, List.length_nil] at h2 <;>
      interval_cases n <;> decide
  have h := append_drain_sync_spec 3 ["s"] ["d"] w7fs w7fs1 hwf
    (by decide) (by decide) (by decide) (by decide) (by decide)
  refine ⟨?_, ?_, ?_, ?_, h.2.2.2⟩
  · exact (h.1 ["s", "same.txt"] [1] 0 true (by decide)
      (by decide)).trans (by decide)
  · exact (h.1 ["s", "diff.txt"] [2] 0 true (by decide)
      (by decide)).trans (by decide)
  · exact (h.1 ["s", "sub", "deep.txt"] [3] 0 true (by decide)
      (by decide)).trans (by decide)
  · exact h.2.1 ["s", "sub"] (by decide) (by decide)

end BRT
